import Mathlib

/-!
Verification development for `fix-logger-errors.py`, a one-shot source-tree
rewriter.  The script applies an ordered table of eight regex rules
(`PATTERNS`, lines 15-62) to file contents (`fix_file`, lines 79-105), selects
candidate files by extension, a path deny-list and a trigger substring
(`should_skip_file` lines 64-77, `find_files_with_logger_errors` lines
107-125), and aggregates a run summary (`main`, lines 127-177).

The regular expressions of the rule table use only literals, the classes
`\s`, `\w`, `[a-zA-Z_]`, `[^,]`, `[^,}]`, greedy `*` / `+` on a single class,
capture groups and one backreference.  They are embedded as lists of `RItem`
and matched by `mat`, a backtracking matcher with Python `re` semantics:
leftmost match, greedy quantifiers trying the longest extent first,
non-overlapping global substitution.  ASCII is assumed for `\s` and `\w`
(the source files the script targets are ASCII program text).
-/

set_option maxHeartbeats 1600000

namespace FixLoggerErrors

/-- Python `\s` on ASCII text: space, tab, newline, carriage return,
vertical tab, form feed. -/
def isSpaceChar (c : Char) : Bool :=
  c == ' ' || c == '\t' || c == '\n' || c == '\r' || c == '\x0b' || c == '\x0c'

/-- Python `\w` on ASCII text: letters, digits, underscore. -/
def isWordChar (c : Char) : Bool :=
  c.isAlpha || c.isDigit || c == '_'

/-- The class `[a-zA-Z_]` used for identifier heads in the rule table. -/
def isIdentChar (c : Char) : Bool :=
  c.isAlpha || c == '_'

/-- Character classes occurring in the rule table's regexes. -/
inductive CCls where
  | space
  | word
  | ident
  | notComma
  | notCommaBrace
deriving DecidableEq

/-- Membership test of a character class. -/
def CCls.test : CCls → Char → Bool
  | .space, c => isSpaceChar c
  | .word, c => isWordChar c
  | .ident, c => isIdentChar c
  | .notComma, c => !(c == ',')
  | .notCommaBrace, c => !(c == ',') && !(c == '\x7d')

/-- One element of a regex: a literal character, a greedy starred or
plussed character class, a capture-group delimiter, or a backreference. -/
inductive RItem where
  | lit (c : Char)
  | clsStar (cc : CCls)
  | clsPlus (cc : CCls)
  | openG (i : Nat)
  | closeG (i : Nat)
  | backref (i : Nat)
deriving DecidableEq

/-- Matcher state: remaining input, stack of open groups (index and the
remaining input at the opening point), and completed captures. -/
structure MSt where
  rem : List Char
  opens : List (Nat × List Char)
  caps : List (Nat × List Char)
deriving DecidableEq

/-- Look up the most recent capture of group `i` (Python `m.group(i)`). -/
def getCap (i : Nat) : List (Nat × List Char) → List Char
  | [] => []
  | (j, v) :: t => if j = i then v else getCap i t

/-- Greedy loop for a starred or plussed class: `f k` is the continuation
after consuming `k` class characters; try `k` from the given value downwards,
stopping at `floor`, and commit to the first success (longest extent). -/
def tryFrom (f : Nat → Option MSt) (floor : Nat) : Nat → Option MSt
  | 0 => f 0
  | k + 1 =>
      match f (k + 1) with
      | some r => some r
      | none => if k + 1 ≤ floor then none else tryFrom f floor k

/-- Backtracking matcher.  `mat p st` matches the item list `p` against
`st.rem` anchored at its start, with Python `re` priority: a greedy
quantifier commits to the longest extent whose continuation succeeds. -/
def mat : List RItem → MSt → Option MSt
  | [], st => some st
  | .lit c :: ps, st =>
      match st.rem with
      | [] => none
      | c2 :: t => if c2 = c then mat ps ⟨t, st.opens, st.caps⟩ else none
  | .clsStar cc :: ps, st =>
      tryFrom (fun k => mat ps ⟨st.rem.drop k, st.opens, st.caps⟩) 0
        ((st.rem.takeWhile cc.test).length)
  | .clsPlus cc :: ps, st =>
      let run := (st.rem.takeWhile cc.test).length
      if run = 0 then none
      else tryFrom (fun k => mat ps ⟨st.rem.drop k, st.opens, st.caps⟩) 1 run
  | .openG i :: ps, st =>
      mat ps ⟨st.rem, (i, st.rem) :: st.opens, st.caps⟩
  | .closeG i :: ps, st =>
      match st.opens with
      | [] => none
      | (j, r0) :: rest =>
          if j = i then
            mat ps ⟨st.rem, rest, (i, r0.take (r0.length - st.rem.length)) :: st.caps⟩
          else none
  | .backref i :: ps, st =>
      let v := getCap i st.caps
      if v.isPrefixOf st.rem then mat ps ⟨st.rem.drop v.length, st.opens, st.caps⟩ else none

/-- Leftmost match of `p` inside `s` (Python scanning: try each start
position left to right).  Returns the text before the match, the matched
text, the captures and the text after the match.  A match consuming zero
characters is skipped; every pattern of this rule table starts with a
literal, so it can never match the empty string. -/
def firstMatch (p : List RItem) : List Char → Option (List Char × List Char × List (Nat × List Char) × List Char)
  | [] => none
  | c :: t =>
      match mat p ⟨c :: t, [], []⟩ with
      | some st =>
          if st.rem.length < (c :: t).length then
            some ([], (c :: t).take ((c :: t).length - st.rem.length), st.caps,
                  (c :: t).drop ((c :: t).length - st.rem.length))
          else
            match firstMatch p t with
            | none => none
            | some (pre, m, cps, post) => some (c :: pre, m, cps, post)
      | none =>
          match firstMatch p t with
          | none => none
          | some (pre, m, cps, post) => some (c :: pre, m, cps, post)

/-- The text after a match is strictly shorter than the scanned text. -/
theorem firstMatch_post_lt (p : List RItem) :
    ∀ s pre m cps post, firstMatch p s = some (pre, m, cps, post) →
      post.length < s.length := by
  intro s
  induction s with
  | nil => intro pre m cps post h; simp [firstMatch] at h
  | cons c t ih =>
      intro pre m cps post h
      rw [firstMatch] at h
      split at h
      · split at h
        · simp only [Option.some.injEq, Prod.mk.injEq] at h
          obtain ⟨-, -, -, h4⟩ := h
          subst h4
          simp only [List.length_drop]
          omega
        · split at h
          · simp at h
          · next pre2 m2 cps2 post2 hr =>
              simp only [Option.some.injEq, Prod.mk.injEq] at h
              obtain ⟨-, -, -, h4⟩ := h
              subst h4
              have := ih pre2 m2 cps2 post2 hr
              simp only [List.length_cons]
              omega
      · split at h
        · simp at h
        · next pre2 m2 cps2 post2 hr =>
            simp only [Option.some.injEq, Prod.mk.injEq] at h
            obtain ⟨-, -, -, h4⟩ := h
            subst h4
            have := ih pre2 m2 cps2 post2 hr
            simp only [List.length_cons]
            omega

/-- Fuelled global substitution; every match consumes at least one
character, so fuel `s.length` always suffices (see `reSub_eq`). -/
def reSubFuel (p : List RItem) (repl : List (Nat × List Char) → List Char) :
    Nat → List Char → List Char
  | 0, s => s
  | fuel + 1, s =>
      match firstMatch p s with
      | none => s
      | some (pre, _, cps, post) => pre ++ repl cps ++ reSubFuel p repl fuel post

/-- Global substitution, Python `re.sub`: replace each non-overlapping
leftmost match by the replacement computed from its captures, continuing
after the match. -/
def reSub (p : List RItem) (repl : List (Nat × List Char) → List Char)
    (s : List Char) : List Char :=
  reSubFuel p repl s.length s

/-- Fuelled match count; fuel `s.length` always suffices (see `reCount_eq`). -/
def reCountFuel (p : List RItem) : Nat → List Char → Nat
  | 0, _ => 0
  | fuel + 1, s =>
      match firstMatch p s with
      | none => 0
      | some (_, _, _, post) => 1 + reCountFuel p fuel post

/-- Number of non-overlapping matches, Python `len(re.findall(...))`. -/
def reCount (p : List RItem) (s : List Char) : Nat :=
  reCountFuel p s.length s

/-- The fuelled substitution does not depend on the fuel, as long as the
fuel dominates the length of the text. -/
theorem reSubFuel_congr (p : List RItem) (repl : List (Nat × List Char) → List Char) :
    ∀ f1 f2 s, s.length ≤ f1 → s.length ≤ f2 →
      reSubFuel p repl f1 s = reSubFuel p repl f2 s := by
  intro f1
  induction f1 with
  | zero =>
      intro f2 s h1 h2
      have hs : s = [] := List.length_eq_zero.mp (Nat.le_zero.mp h1)
      subst hs
      cases f2 with
      | zero => rfl
      | succ g => simp [reSubFuel, firstMatch]
  | succ f ih =>
      intro f2 s h1 h2
      cases s with
      | nil =>
          cases f2 with
          | zero => simp [reSubFuel, firstMatch]
          | succ g => simp [reSubFuel, firstMatch]
      | cons c t =>
          cases f2 with
          | zero => exact absurd h2 (by simp)
          | succ g =>
              cases hm : firstMatch p (c :: t) with
              | none => simp only [reSubFuel, hm]
              | some r =>
                  obtain ⟨pre, m, cps, post⟩ := r
                  have hlt := firstMatch_post_lt p (c :: t) pre m cps post hm
                  have hp1 : post.length ≤ f := by
                    simp only [List.length_cons] at h1 hlt; omega
                  have hp2 : post.length ≤ g := by
                    simp only [List.length_cons] at h2 hlt; omega
                  simp only [reSubFuel, hm]
                  rw [ih g post hp1 hp2]

/-- Unfolding equation of `reSub`. -/
theorem reSub_eq (p : List RItem) (repl : List (Nat × List Char) → List Char)
    (s : List Char) :
    reSub p repl s =
      match firstMatch p s with
      | none => s
      | some (pre, _, cps, post) => pre ++ repl cps ++ reSub p repl post := by
  cases s with
  | nil => simp [reSub, reSubFuel, firstMatch]
  | cons c t =>
      show reSubFuel p repl (t.length + 1) (c :: t) = _
      cases hm : firstMatch p (c :: t) with
      | none => simp only [reSubFuel, hm]
      | some r =>
          obtain ⟨pre, m, cps, post⟩ := r
          have hlt := firstMatch_post_lt p (c :: t) pre m cps post hm
          have hle : post.length ≤ t.length := by
            simp only [List.length_cons] at hlt; omega
          simp only [reSubFuel, hm]
          rw [reSubFuel_congr p repl t.length post.length post hle (Nat.le_refl _)]
          rfl

/-- The fuelled count does not depend on the fuel, as long as the fuel
dominates the length of the text. -/
theorem reCountFuel_congr (p : List RItem) :
    ∀ f1 f2 s, s.length ≤ f1 → s.length ≤ f2 →
      reCountFuel p f1 s = reCountFuel p f2 s := by
  intro f1
  induction f1 with
  | zero =>
      intro f2 s h1 h2
      have hs : s = [] := List.length_eq_zero.mp (Nat.le_zero.mp h1)
      subst hs
      cases f2 with
      | zero => rfl
      | succ g => simp [reCountFuel, firstMatch]
  | succ f ih =>
      intro f2 s h1 h2
      cases s with
      | nil =>
          cases f2 with
          | zero => simp [reCountFuel, firstMatch]
          | succ g => simp [reCountFuel, firstMatch]
      | cons c t =>
          cases f2 with
          | zero => exact absurd h2 (by simp)
          | succ g =>
              cases hm : firstMatch p (c :: t) with
              | none => simp only [reCountFuel, hm]
              | some r =>
                  obtain ⟨pre, m, cps, post⟩ := r
                  have hlt := firstMatch_post_lt p (c :: t) pre m cps post hm
                  have hp1 : post.length ≤ f := by
                    simp only [List.length_cons] at h1 hlt; omega
                  have hp2 : post.length ≤ g := by
                    simp only [List.length_cons] at h2 hlt; omega
                  simp only [reCountFuel, hm]
                  rw [ih g post hp1 hp2]

/-- Unfolding equation of `reCount`. -/
theorem reCount_eq (p : List RItem) (s : List Char) :
    reCount p s =
      match firstMatch p s with
      | none => 0
      | some (_, _, _, post) => 1 + reCount p post := by
  cases s with
  | nil => simp [reCount, reCountFuel, firstMatch]
  | cons c t =>
      show reCountFuel p (t.length + 1) (c :: t) = _
      cases hm : firstMatch p (c :: t) with
      | none => simp only [reCountFuel, hm]
      | some r =>
          obtain ⟨pre, m, cps, post⟩ := r
          have hlt := firstMatch_post_lt p (c :: t) pre m cps post hm
          have hle : post.length ≤ t.length := by
            simp only [List.length_cons] at hlt; omega
          simp only [reCountFuel, hm]
          rw [reCountFuel_congr p t.length post.length post hle (Nat.le_refl _)]
          rfl

/-- Literal run of a regex: each character matched verbatim. -/
def lits (s : String) : List RItem := s.data.map RItem.lit

/-- The item `\s*`. -/
def spaceStar : RItem := .clsStar .space

/-- Shared prefix of all eight search regexes: `logger\.error\(([^,]+),`. -/
def anchorItems : List RItem :=
  lits "logger.error(" ++ [.openG 1, .clsPlus .notComma, .closeG 1, .lit ',']

/-- Remainder of PATTERNS[0] after the shared anchor:
`\s*\{\s*error:\s*errorMessage\s*,`. -/
def restErrorMessageComma : List RItem :=
  [spaceStar, .lit '\x7b', spaceStar] ++ lits "error:" ++
    [spaceStar] ++ lits "errorMessage" ++ [spaceStar, .lit ',']

/-- Search regex of PATTERNS[0] (line 18):
`logger\.error\(([^,]+),\s*\{\s*error:\s*errorMessage\s*,`. -/
def searchErrorMessageComma : List RItem :=
  anchorItems ++ restErrorMessageComma

/-- Replacement of PATTERNS[0] (line 19):
`logger.error({m.group(1)}, new Error(errorMessage), \x7b`. -/
def replaceErrorMessageComma (caps : List (Nat × List Char)) : List Char :=
  "logger.error(".data ++ getCap 1 caps ++ ", new Error(errorMessage), \x7b".data

/-- Remainder of PATTERNS[1] after the shared anchor:
`\s*\{\s*error:\s*errorMessage\s*\}\s*\)`. -/
def restErrorMessageOnly : List RItem :=
  [spaceStar, .lit '\x7b', spaceStar] ++ lits "error:" ++
    [spaceStar] ++ lits "errorMessage" ++ [spaceStar, .lit '\x7d', spaceStar, .lit ')']

/-- Search regex of PATTERNS[1] (line 23):
`logger\.error\(([^,]+),\s*\{\s*error:\s*errorMessage\s*\}\s*\)`. -/
def searchErrorMessageOnly : List RItem :=
  anchorItems ++ restErrorMessageOnly

/-- Replacement of PATTERNS[1] (line 24). -/
def replaceErrorMessageOnly (caps : List (Nat × List Char)) : List Char :=
  "logger.error(".data ++ getCap 1 caps ++ ", new Error(errorMessage))".data

/-- Remainder of PATTERNS[2] after the shared anchor:
`\s*\{\s*error:\s*([a-zA-Z_]+)\.message\s*,`. -/
def restDotMessageComma : List RItem :=
  [spaceStar, .lit '\x7b', spaceStar] ++ lits "error:" ++
    [spaceStar, .openG 2, .clsPlus .ident, .closeG 2] ++ lits ".message" ++
    [spaceStar, .lit ',']

/-- Search regex of PATTERNS[2] (line 29):
`logger\.error\(([^,]+),\s*\{\s*error:\s*([a-zA-Z_]+)\.message\s*,`. -/
def searchDotMessageComma : List RItem :=
  anchorItems ++ restDotMessageComma

/-- Replacement of PATTERNS[2] (line 30). -/
def replaceDotMessageComma (caps : List (Nat × List Char)) : List Char :=
  "logger.error(".data ++ getCap 1 caps ++ ", new Error(".data ++ getCap 2 caps ++
    ".message), \x7b".data

/-- Remainder of PATTERNS[3] after the shared anchor:
`\s*\{\s*error:\s*([a-zA-Z_]+)\.message\s*\}\s*\)`. -/
def restDotMessageOnly : List RItem :=
  [spaceStar, .lit '\x7b', spaceStar] ++ lits "error:" ++
    [spaceStar, .openG 2, .clsPlus .ident, .closeG 2] ++ lits ".message" ++
    [spaceStar, .lit '\x7d', spaceStar, .lit ')']

/-- Search regex of PATTERNS[3] (line 34):
`logger\.error\(([^,]+),\s*\{\s*error:\s*([a-zA-Z_]+)\.message\s*\}\s*\)`. -/
def searchDotMessageOnly : List RItem :=
  anchorItems ++ restDotMessageOnly

/-- Replacement of PATTERNS[3] (line 35). -/
def replaceDotMessageOnly (caps : List (Nat × List Char)) : List Char :=
  "logger.error(".data ++ getCap 1 caps ++ ", new Error(".data ++ getCap 2 caps ++
    ".message))".data

/-- Remainder of PATTERNS[4] after the shared anchor:
`\s*\{\s*error:\s*result\.error\s*\}\s*\)`. -/
def restResultError : List RItem :=
  [spaceStar, .lit '\x7b', spaceStar] ++ lits "error:" ++
    [spaceStar] ++ lits "result.error" ++ [spaceStar, .lit '\x7d', spaceStar, .lit ')']

/-- Search regex of PATTERNS[4] (line 40):
`logger\.error\(([^,]+),\s*\{\s*error:\s*result\.error\s*\}\s*\)`. -/
def searchResultError : List RItem :=
  anchorItems ++ restResultError

/-- Replacement of PATTERNS[4] (line 41). -/
def replaceResultError (caps : List (Nat × List Char)) : List Char :=
  "logger.error(".data ++ getCap 1 caps ++ ", new Error(result.error))".data

/-- Remainder of PATTERNS[5] after the shared anchor:
`\s*\{\s*error:\s*err\s+instanceof\s+Error\s*\?\s*err\.message\s*:\s*[^,}]+\s*\}\s*\)`. -/
def restConditional : List RItem :=
  [spaceStar, .lit '\x7b', spaceStar] ++ lits "error:" ++
    [spaceStar] ++ lits "err" ++ [.clsPlus .space] ++ lits "instanceof" ++
    [.clsPlus .space] ++ lits "Error" ++ [spaceStar, .lit '?', spaceStar] ++
    lits "err.message" ++ [spaceStar, .lit ':', spaceStar, .clsPlus .notCommaBrace,
    spaceStar, .lit '\x7d', spaceStar, .lit ')']

/-- Search regex of PATTERNS[5] (line 46):
`logger\.error\(([^,]+),\s*\{\s*error:\s*err\s+instanceof\s+Error\s*\?\s*err\.message\s*:\s*[^,}]+\s*\}\s*\)`. -/
def searchConditional : List RItem :=
  anchorItems ++ restConditional

/-- Replacement of PATTERNS[5] (line 47). -/
def replaceConditional (caps : List (Nat × List Char)) : List Char :=
  "logger.error(".data ++ getCap 1 caps ++
    ", err instanceof Error ? err : new Error(String(err)))".data

/-- Remainder of PATTERNS[6] after the shared anchor:
`\s*\{\s*(\w+Error):\s*(\w+)\.message\s*,`. -/
def restNamedError : List RItem :=
  [spaceStar, .lit '\x7b', spaceStar, .openG 2, .clsPlus .word] ++
    lits "Error" ++ [.closeG 2, .lit ':', spaceStar, .openG 3, .clsPlus .word,
    .closeG 3] ++ lits ".message" ++ [spaceStar, .lit ',']

/-- Search regex of PATTERNS[6] (line 52):
`logger\.error\(([^,]+),\s*\{\s*(\w+Error):\s*(\w+)\.message\s*,`. -/
def searchNamedError : List RItem :=
  anchorItems ++ restNamedError

/-- Replacement of PATTERNS[6] (line 53):
`logger.error({g1}, new Error({g3}.message), \x7b {g2}Type: \x27{g2}\x27,`. -/
def replaceNamedError (caps : List (Nat × List Char)) : List Char :=
  "logger.error(".data ++ getCap 1 caps ++ ", new Error(".data ++ getCap 3 caps ++
    ".message), \x7b ".data ++ getCap 2 caps ++ "Type: \x27".data ++
    getCap 2 caps ++ "\x27,".data

/-- Remainder of PATTERNS[7] after the shared anchor:
`\s*\{\s*error:\s*([a-zA-Z_]+)\.message\s*,\s*stack:\s*\2\.stack\s*,`. -/
def restStack : List RItem :=
  [spaceStar, .lit '\x7b', spaceStar] ++ lits "error:" ++
    [spaceStar, .openG 2, .clsPlus .ident, .closeG 2] ++ lits ".message" ++
    [spaceStar, .lit ',', spaceStar] ++ lits "stack:" ++ [spaceStar, .backref 2] ++
    lits ".stack" ++ [spaceStar, .lit ',']

/-- Search regex of PATTERNS[7] (line 58):
`logger\.error\(([^,]+),\s*\{\s*error:\s*([a-zA-Z_]+)\.message\s*,\s*stack:\s*\2\.stack\s*,`. -/
def searchStack : List RItem :=
  anchorItems ++ restStack

/-- Replacement of PATTERNS[7] (line 59):
`logger.error({g1}, {g2}, \x7b`. -/
def replaceStack (caps : List (Nat × List Char)) : List Char :=
  "logger.error(".data ++ getCap 1 caps ++ ", ".data ++ getCap 2 caps ++ ", \x7b".data

/-- One entry of the rule table: search pattern and replacement generator. -/
structure Rule where
  search : List RItem
  replace : List (Nat × List Char) → List Char

/-- The rule table, in source order (PATTERNS, lines 15-62). -/
def PATTERNS : List Rule :=
  [⟨searchErrorMessageComma, replaceErrorMessageComma⟩,
   ⟨searchErrorMessageOnly, replaceErrorMessageOnly⟩,
   ⟨searchDotMessageComma, replaceDotMessageComma⟩,
   ⟨searchDotMessageOnly, replaceDotMessageOnly⟩,
   ⟨searchResultError, replaceResultError⟩,
   ⟨searchConditional, replaceConditional⟩,
   ⟨searchNamedError, replaceNamedError⟩,
   ⟨searchStack, replaceStack⟩]

/-- One step of the engine loop (lines 89-93): count the matches of the
rule's pattern in the current content and, when there is at least one,
substitute globally; the count is added to the running fix total. -/
def applyRule (content : List Char) (r : Rule) : List Char × Nat :=
  if 0 < reCount r.search content then
    (reSub r.search r.replace content, reCount r.search content)
  else (content, 0)

/-- The engine loop over the rule table, each rule applied to the current
content, in table order. -/
def applyPatterns : List Rule → List Char → List Char × Nat
  | [], c => (c, 0)
  | r :: rs, c =>
      ((applyPatterns rs (applyRule c r).1).1,
        (applyRule c r).2 + (applyPatterns rs (applyRule c r).1).2)

/-- Pure core of `fix_file` (lines 79-105): returns (modified?, fix count);
when the rewritten content equals the original the file reports (False, 0)
and no write happens. -/
def fixResult (content : List Char) : Bool × Nat :=
  let p := applyPatterns PATTERNS content
  if p.1 ≠ content then (true, p.2) else (false, 0)

/-- Substring test, Python `needle in hay`. -/
def containsSub (needle : List Char) : List Char → Bool
  | [] => needle.isEmpty
  | c :: t => needle.isPrefixOf (c :: t) || containsSub needle t

/-- The path deny-list of `should_skip_file` (lines 66-76). -/
def skip_patterns : List String :=
  ["node_modules", ".git", "coverage", "dist", "build", ".next",
   "DEBUG.md", "fix-logger-errors.py", "logger.ts"]

/-- Model of `should_skip_file` (lines 64-77): skip when any deny-listed
substring occurs in the path. -/
def should_skip_file (filepath : String) : Bool :=
  skip_patterns.any (fun pat => containsSub pat.data filepath.data)

/-- The trigger substring used to pre-screen candidate files (line 120). -/
def triggerSub : List Char := "logger.error(".data

/-- Abstraction of one file of the scanned tree: its path, whether the two
reads and the write succeed, and its text.  The script reads each file once
during discovery and again during fixing; the tree is assumed quiescent
(spec section 5), so both reads see the same `content`. -/
structure FsEntry where
  path : String
  scanReadOk : Bool
  fixReadOk : Bool
  writeOk : Bool
  content : List Char
deriving DecidableEq

/-- One extension pass of `find_files_with_logger_errors` (lines 112-123):
`rglob` on one extension, path deny-list, silent skip of unreadable files,
trigger-substring pre-screen. -/
def find_pass (ext : String) (fs : List FsEntry) : List FsEntry :=
  fs.filter (fun e =>
    ext.data.isSuffixOf e.path.data && !should_skip_file e.path && e.scanReadOk &&
      containsSub triggerSub e.content)

/-- Model of `find_files_with_logger_errors` (lines 107-125): the `*.ts`
pass followed by the `*.tsx` pass. -/
def find_files_with_logger_errors (fs : List FsEntry) : List FsEntry :=
  find_pass ".ts" fs ++ find_pass ".tsx" fs

/-- Result of processing one file: the pair returned by `fix_file`, the
resulting on-disk content, and the error line printed by the `except`
handler (line 104) when a read or write raised. -/
structure FixOutcome where
  modified : Bool
  fixes : Nat
  disk : List Char
  errMsg : Option String
deriving DecidableEq

/-- Model of `fix_file` (lines 79-105).  A failed read or write is caught
by the handler, which prints a message naming the file and makes the file
report `(False, 0)`.  A write that raises leaves the on-disk state
indeterminate (spec section 5); it is modelled as the original content,
which no claim depends on. -/
def fix_file (e : FsEntry) : FixOutcome :=
  if e.fixReadOk then
    if (applyPatterns PATTERNS e.content).1 ≠ e.content then
      if e.writeOk then
        ⟨true, (applyPatterns PATTERNS e.content).2, (applyPatterns PATTERNS e.content).1, none⟩
      else ⟨false, 0, e.content, some ("Error processing " ++ e.path)⟩
    else ⟨false, 0, e.content, none⟩
  else ⟨false, 0, e.content, some ("Error processing " ++ e.path)⟩

/-- The per-file result stream of `main` (lines 145-152): every candidate
file is processed, in order, regardless of earlier per-file failures. -/
def runResults (fs : List FsEntry) : List (String × FixOutcome) :=
  (find_files_with_logger_errors fs).map (fun e => (e.path, fix_file e))

/-- The run summary printed by `main` (lines 154-167): candidate count
(printed as "Total files scanned"), the paths that were modified, and the
fix total accumulated over modified files. -/
structure Summary where
  totalScanned : Nat
  fixedFiles : List String
  totalFixes : Nat
deriving DecidableEq

/-- Model of the aggregation in `main` (lines 142-161). -/
def runSummary (fs : List FsEntry) : Summary :=
  let rs := runResults fs
  { totalScanned := rs.length
  , fixedFiles := (rs.filter (fun r => r.2.modified)).map (fun r => r.1)
  , totalFixes := ((rs.filter (fun r => r.2.modified)).map (fun r => r.2.fixes)).sum }

/-- Zero accumulated fixes forces an unchanged content: each rule either
counted at least one match or left the content alone. -/
theorem applyPatterns_zero_fixes :
    ∀ (rs : List Rule) (c : List Char),
      (applyPatterns rs c).2 = 0 → (applyPatterns rs c).1 = c := by
  intro rs
  induction rs with
  | nil => intro c _; rfl
  | cons r rest ih =>
      intro c h
      simp only [applyPatterns] at h ⊢
      have hn : (applyRule c r).2 = 0 ∧ (applyPatterns rest (applyRule c r).1).2 = 0 := by
        omega
      have hr : (applyRule c r).1 = c := by
        have h1 := hn.1
        by_cases hc : 0 < reCount r.search c
        · simp only [applyRule, if_pos hc] at h1
          omega
        · simp only [applyRule, if_neg hc]
      rw [hr] at hn ⊢
      exact ih c hn.2

/-- Membership in a candidate list implies the selector predicate held. -/
theorem mem_find_pass {ext : String} {fs : List FsEntry} {e : FsEntry}
    (h : e ∈ find_pass ext fs) :
    e ∈ fs ∧ (ext.data.isSuffixOf e.path.data && !should_skip_file e.path && e.scanReadOk &&
      containsSub triggerSub e.content) = true := by
  unfold find_pass at h
  exact List.mem_filter.mp h

/-- Membership in the full candidate list implies the selector predicate. -/
theorem mem_find_files {fs : List FsEntry} {e : FsEntry}
    (h : e ∈ find_files_with_logger_errors fs) :
    e ∈ fs ∧ should_skip_file e.path = false ∧ e.scanReadOk = true ∧
      containsSub triggerSub e.content = true := by
  unfold find_files_with_logger_errors at h
  rcases List.mem_append.mp h with h1 | h1 <;>
  · obtain ⟨hm, hp⟩ := mem_find_pass h1
    simp only [Bool.and_eq_true, Bool.not_eq_true'] at hp
    exact ⟨hm, hp.1.1.2, hp.1.2, hp.2⟩

/-- Paths reported as fixed come from candidate entries. -/
theorem mem_fixedFiles {fs : List FsEntry} {p : String}
    (h : p ∈ (runSummary fs).fixedFiles) :
    ∃ e ∈ find_files_with_logger_errors fs, e.path = p := by
  unfold runSummary at h
  simp only [List.mem_map, List.mem_filter] at h
  obtain ⟨⟨q, o⟩, ⟨hmem, _⟩, hq⟩ := h
  unfold runResults at hmem
  simp only [List.mem_map] at hmem
  obtain ⟨e, he, heq⟩ := hmem
  obtain ⟨h1, -⟩ := Prod.mk.injEq .. ▸ heq
  exact ⟨e, he, by rw [← hq, ← h1]⟩

/-- C1: the claim states that a call passing
`\x7b error: err.message, stack: err.stack, ... \x7d` is rewritten by one full
pass into a call passing `err` directly with `stack` removed.  The code
does not do this: the earlier, broader rule PATTERNS[2] (`error:
<ident>.message` followed by a comma) matches the same call first and
rewrites it to `new Error(err.message)`, keeping the `stack` property, so
the dedicated stack rule PATTERNS[7] never fires.  This theorem evaluates
the engine at the failing input: the result keeps `stack:` and is not the
collapsed form the claim (and the rule's own in-code description) demands. -/
theorem c1_stack_rule_shadowed :
    applyPatterns PATTERNS
        "logger.error(\x27Failed\x27, \x7b error: err.message, stack: err.stack, userId \x7d)".data =
      ("logger.error(\x27Failed\x27, new Error(err.message), \x7b stack: err.stack, userId \x7d)".data, 1) ∧
    containsSub "stack:".data
        (applyPatterns PATTERNS
          "logger.error(\x27Failed\x27, \x7b error: err.message, stack: err.stack, userId \x7d)".data).1 = true ∧
    (applyPatterns PATTERNS
        "logger.error(\x27Failed\x27, \x7b error: err.message, stack: err.stack, userId \x7d)".data).1 ≠
      "logger.error(\x27Failed\x27, err, \x7b userId \x7d)".data := by
  refine ⟨by decide, by decide, by decide⟩

/-- C3 counterexample: the claim states that for a call passing `error`
bound to `err instanceof Error ? err.message : fallback`, the non-error
branch of the rewritten argument wraps the stringified fallback expression
of the original call.  At the concrete call site whose fallback is the
expression `fallbackMessage`, the engine instead emits
`new Error(String(err))`: the fallback expression does not occur anywhere
in the output. -/
theorem c3_fallback_discarded :
    applyPatterns PATTERNS
        "logger.error(msg, \x7b error: err instanceof Error ? err.message : fallbackMessage \x7d)".data =
      ("logger.error(msg, err instanceof Error ? err : new Error(String(err)))".data, 1) ∧
    containsSub "fallbackMessage".data
        (applyPatterns PATTERNS
          "logger.error(msg, \x7b error: err instanceof Error ? err.message : fallbackMessage \x7d)".data).1 = false := by
  refine ⟨by decide, by decide⟩

/-- Two-file tree used to refute C4: `src/a.ts` contains the trigger
substring, `src/b.ts` does not. -/
def exFsC4 : List FsEntry :=
  [⟨"src/a.ts", true, true, true, "logger.error(x)".data⟩,
   ⟨"src/b.ts", true, true, true, "export const y = 1".data⟩]

/-- C4 counterexample: the claim states that a file without the trigger
substring is counted among the total files scanned.  In the two-file tree
`exFsC4` the file `src/b.ts` has no trigger occurrence, yet the summary's
scanned total is 1, not 2: the file is excluded from the candidate list
altogether, so it is never counted as scanned. -/
theorem c4_no_trigger_not_counted :
    containsSub triggerSub "export const y = 1".data = false ∧
    (runSummary exFsC4).totalScanned = 1 ∧
    (find_files_with_logger_errors exFsC4).map FsEntry.path = ["src/a.ts"] := by
  refine ⟨by decide, by decide, by decide⟩

/-- C4 amended: a file whose content contains no occurrence of the trigger
substring is never selected as a candidate, hence not counted in the
summary's "Total files scanned" figure, not processed, reported by nothing,
and absent from the changed-files list. -/
theorem c4_no_trigger_excluded (fs : List FsEntry) (p : String)
    (h : ∀ e ∈ fs, e.path = p → containsSub triggerSub e.content = false) :
    (∀ e ∈ find_files_with_logger_errors fs, e.path ≠ p) ∧
    p ∉ (runSummary fs).fixedFiles := by
  constructor
  · intro e he hp
    obtain ⟨hmem, -, -, htrig⟩ := mem_find_files he
    have := h e hmem hp
    rw [this] at htrig
    exact Bool.false_ne_true htrig
  · intro hp
    obtain ⟨e, he, hpe⟩ := mem_fixedFiles hp
    obtain ⟨hmem, -, -, htrig⟩ := mem_find_files he
    have := h e hmem hpe
    rw [this] at htrig
    exact Bool.false_ne_true htrig

/-- Witness for the amended C4 at the concrete tree `exFsC4` and the
trigger-free path `src/b.ts`. -/
theorem c4_no_trigger_excluded_witness :
    (∀ e ∈ find_files_with_logger_errors exFsC4, e.path ≠ "src/b.ts") ∧
    "src/b.ts" ∉ (runSummary exFsC4).fixedFiles :=
  c4_no_trigger_excluded exFsC4 "src/b.ts" (by decide)

/-- C6: a file whose path contains any deny-listed substring is never
selected as a candidate, whatever its content, and never appears among the
changed files. -/
theorem c6_deny_list_respected (fs : List FsEntry) (p : String)
    (h : ∃ pat ∈ skip_patterns, containsSub pat.data p.data = true) :
    (∀ e ∈ find_files_with_logger_errors fs, e.path ≠ p) ∧
    p ∉ (runSummary fs).fixedFiles := by
  have hskip : should_skip_file p = true := by
    obtain ⟨pat, hpat, hc⟩ := h
    unfold should_skip_file
    exact List.any_eq_true.mpr ⟨pat, hpat, hc⟩
  constructor
  · intro e he hp
    obtain ⟨-, hns, -, -⟩ := mem_find_files he
    rw [hp, hskip] at hns
    cases hns
  · intro hp
    obtain ⟨e, he, hpe⟩ := mem_fixedFiles hp
    obtain ⟨-, hns, -, -⟩ := mem_find_files he
    rw [hpe, hskip] at hns
    cases hns

/-- Witness for C6: a file under `node_modules` whose content does contain
the trigger substring is still never selected. -/
theorem c6_deny_list_respected_witness :
    (∀ e ∈ find_files_with_logger_errors
        [⟨"node_modules/lib/a.ts", true, true, true, "logger.error(x)".data⟩],
      e.path ≠ "node_modules/lib/a.ts") ∧
    "node_modules/lib/a.ts" ∉ (runSummary
        [⟨"node_modules/lib/a.ts", true, true, true, "logger.error(x)".data⟩]).fixedFiles :=
  c6_deny_list_respected _ _ ⟨"node_modules", by decide, by decide⟩

/-- C7: a read or write error while processing a candidate file is caught
locally: the handler prints a line naming the file, the file reports
(not changed, zero fixes), and every candidate of the run, including this
one, still contributes its own result to the result stream (the run never
aborts). -/
theorem c7_errors_contained (fs : List FsEntry) (e : FsEntry)
    (hcand : e ∈ find_files_with_logger_errors fs)
    (herr : e.fixReadOk = false ∨
      (e.writeOk = false ∧ (applyPatterns PATTERNS e.content).1 ≠ e.content)) :
    (fix_file e).modified = false ∧ (fix_file e).fixes = 0 ∧
    (fix_file e).errMsg = some ("Error processing " ++ e.path) ∧
    (e.path, fix_file e) ∈ runResults fs ∧
    (∀ e2 ∈ find_files_with_logger_errors fs, (e2.path, fix_file e2) ∈ runResults fs) := by
  have hout : fix_file e = ⟨false, 0, e.content, some ("Error processing " ++ e.path)⟩ := by
    rcases herr with hread | ⟨hwrite, hchanged⟩
    · unfold fix_file
      rw [hread]
      simp
    · unfold fix_file
      rcases hre : e.fixReadOk with _ | _
      · simp
      · rw [if_pos rfl, if_pos hchanged, hwrite]
        simp
  refine ⟨by rw [hout], by rw [hout], by rw [hout], ?_, ?_⟩
  · unfold runResults
    exact List.mem_map.mpr ⟨e, hcand, rfl⟩
  · intro e2 h2
    unfold runResults
    exact List.mem_map.mpr ⟨e2, h2, rfl⟩

/-- Witness for C7: an unreadable candidate file in a one-file tree. -/
theorem c7_errors_contained_witness :
    (fix_file ⟨"src/a.ts", true, false, true, "logger.error(x)".data⟩).modified = false ∧
    (fix_file ⟨"src/a.ts", true, false, true, "logger.error(x)".data⟩).fixes = 0 ∧
    (fix_file ⟨"src/a.ts", true, false, true, "logger.error(x)".data⟩).errMsg =
      some ("Error processing " ++ "src/a.ts") ∧
    ("src/a.ts", fix_file ⟨"src/a.ts", true, false, true, "logger.error(x)".data⟩) ∈
      runResults [⟨"src/a.ts", true, false, true, "logger.error(x)".data⟩] ∧
    (∀ e2 ∈ find_files_with_logger_errors [⟨"src/a.ts", true, false, true, "logger.error(x)".data⟩],
      (e2.path, fix_file e2) ∈ runResults [⟨"src/a.ts", true, false, true, "logger.error(x)".data⟩]) :=
  c7_errors_contained _ _ (by decide) (Or.inl rfl)

/-- C8: for a readable file, when the content produced by the full rule
pass equals the original the file is reported unchanged and the disk keeps
the original content (no write happens); when it differs and the write
succeeds, the disk holds exactly the rewritten content and the file is
reported changed. -/
theorem c8_write_back_iff_changed (e : FsEntry) (hread : e.fixReadOk = true) :
    ((applyPatterns PATTERNS e.content).1 = e.content →
      fix_file e = ⟨false, 0, e.content, none⟩) ∧
    ((applyPatterns PATTERNS e.content).1 ≠ e.content → e.writeOk = true →
      (fix_file e).disk = (applyPatterns PATTERNS e.content).1 ∧
      (fix_file e).modified = true) := by
  constructor
  · intro hsame
    simp only [fix_file, hread, hsame, ne_eq, not_true_eq_false, if_false, if_true]
  · intro hdiff hw
    simp only [fix_file, hread, hw, hdiff, ne_eq, not_false_eq_true, if_true]
    exact ⟨trivial, trivial⟩

/-- Witness for C8, second part exercised: a one-call file is rewritten and
written back; the first part is exercised by a no-match file. -/
theorem c8_write_back_iff_changed_witness :
    fix_file ⟨"src/a.ts", true, true, true, "logger.error(x)".data⟩ =
      ⟨false, 0, "logger.error(x)".data, none⟩ ∧
    (fix_file ⟨"src/b.ts", true, true, true,
        "logger.error(m, \x7b error: errorMessage \x7d)".data⟩).disk =
      (applyPatterns PATTERNS "logger.error(m, \x7b error: errorMessage \x7d)".data).1 := by
  constructor
  · exact (c8_write_back_iff_changed ⟨"src/a.ts", true, true, true,
      "logger.error(x)".data⟩ rfl).1 (by decide)
  · exact ((c8_write_back_iff_changed ⟨"src/b.ts", true, true, true,
      "logger.error(m, \x7b error: errorMessage \x7d)".data⟩ rfl).2 (by decide) rfl).1

/-- C10: the pair returned by the engine for a file content satisfies the
invariant: modified is true exactly when the final content differs from the
original; a modified file reports at least one fix; an unmodified file
reports exactly zero fixes even if rules counted matches. -/
theorem c10_result_invariant (content : List Char) :
    ((fixResult content).1 = true ↔ (applyPatterns PATTERNS content).1 ≠ content) ∧
    ((fixResult content).1 = true → 1 ≤ (fixResult content).2) ∧
    ((fixResult content).1 = false → (fixResult content).2 = 0) := by
  by_cases hc : (applyPatterns PATTERNS content).1 ≠ content
  · have h1 : fixResult content = (true, (applyPatterns PATTERNS content).2) := by
      unfold fixResult
      rw [if_pos hc]
    rw [h1]
    refine ⟨⟨fun _ => hc, fun _ => rfl⟩, ?_, ?_⟩
    · intro _
      show 1 ≤ (applyPatterns PATTERNS content).2
      by_contra hlt
      have hz : (applyPatterns PATTERNS content).2 = 0 := by omega
      exact hc (applyPatterns_zero_fixes PATTERNS content hz)
    · intro h
      simp at h
  · have h1 : fixResult content = (false, 0) := by
      unfold fixResult
      rw [if_neg hc]
    rw [h1]
    refine ⟨⟨fun h => absurd h (by simp), fun h => absurd h hc⟩, ?_, ?_⟩
    · intro h
      simp at h
    · intro _
      rfl

/-- Witness for C10 at a one-fix content: modified with a positive count. -/
theorem c10_result_invariant_witness :
    1 ≤ (fixResult "logger.error(m, \x7b error: errorMessage \x7d)".data).2 :=
  (c10_result_invariant "logger.error(m, \x7b error: errorMessage \x7d)".data).2.1 (by decide)

/-- Strip an expected literal prefix from a text, returning the rest. -/
def stripPre : List Char → List Char → Option (List Char)
  | [], r => some r
  | _ :: _, [] => none
  | c :: l, d :: r => if d = c then stripPre l r else none

/-- Stripping a prefix succeeds exactly on texts that extend it. -/
theorem stripPre_eq_some_iff :
    ∀ (l s r : List Char), stripPre l s = some r ↔ s = l ++ r := by
  intro l
  induction l with
  | nil => intro s r; simp [stripPre, eq_comm]
  | cons c l ih =>
      intro s r
      cases s with
      | nil => simp [stripPre]
      | cons d t =>
          by_cases hd : d = c
          · subst hd
            simp [stripPre, ih]
          · simp [stripPre, hd]

/-- Matching a literal run reduces to stripping it from the text. -/
theorem mat_litsList :
    ∀ (L : List Char) (ps : List RItem) (st : MSt),
      mat (L.map RItem.lit ++ ps) st =
        match stripPre L st.rem with
        | some r => mat ps ⟨r, st.opens, st.caps⟩
        | none => none := by
  intro L
  induction L with
  | nil => intro ps st; simp [stripPre]
  | cons c l ih =>
      intro ps st
      obtain ⟨rem, opens, caps⟩ := st
      cases rem with
      | nil => simp [mat, stripPre]
      | cons d t =>
          simp only [List.map_cons, List.cons_append, mat, stripPre]
          by_cases hd : d = c
          · rw [if_pos hd, if_pos hd]
            exact ih ps ⟨t, opens, caps⟩
          · rw [if_neg hd, if_neg hd]

/-- Matching `lits s ++ ps` reduces to stripping `s` from the text. -/
theorem mat_lits_append (s : String) (ps : List RItem) (st : MSt) :
    mat (lits s ++ ps) st =
      match stripPre s.data st.rem with
      | some r => mat ps ⟨r, st.opens, st.caps⟩
      | none => none :=
  mat_litsList s.data ps st

/-- A success of the greedy loop comes from some extent between the floor
and the start (or the start itself). -/
theorem tryFrom_eq_some (f : Nat → Option MSt) (floor : Nat) :
    ∀ (k : Nat) (r : MSt), tryFrom f floor k = some r →
      ∃ j ≤ k, f j = some r ∧ (floor ≤ j ∨ j = k) := by
  intro k
  induction k with
  | zero =>
      intro r h
      exact ⟨0, Nat.le_refl 0, h, Or.inr rfl⟩
  | succ k ih =>
      intro r h
      unfold tryFrom at h
      cases hf : f (k + 1) with
      | some r2 =>
          rw [hf] at h
          have hr : r2 = r := by
            simpa using h
          exact ⟨k + 1, Nat.le_refl _, by rw [hf, hr], Or.inr rfl⟩
      | none =>
          rw [hf] at h
          by_cases hfl : k + 1 ≤ floor
          · rw [if_pos hfl] at h; cases h
          · rw [if_neg hfl] at h
            obtain ⟨j, hj, hfj, hor⟩ := ih r h
            refine ⟨j, Nat.le_succ_of_le hj, hfj, Or.inl ?_⟩
            rcases hor with h1 | h1
            · exact h1
            · subst h1
              omega

/-- The greedy loop succeeds immediately when the longest extent works. -/
theorem tryFrom_top (f : Nat → Option MSt) (floor k : Nat) (r : MSt)
    (h : f k = some r) : tryFrom f floor k = some r := by
  cases k with
  | zero => exact h
  | succ k => unfold tryFrom; rw [h]

/-- The greedy loop fails when every extent up to the start fails. -/
theorem tryFrom_none_of (f : Nat → Option MSt) (floor : Nat) :
    ∀ k, (∀ j ≤ k, f j = none) → tryFrom f floor k = none := by
  intro k
  induction k with
  | zero => intro h; exact h 0 (Nat.le_refl 0)
  | succ k ih =>
      intro h
      unfold tryFrom
      rw [h (k + 1) (Nat.le_refl _)]
      by_cases hfl : k + 1 ≤ floor
      · rw [if_pos hfl]
      · rw [if_neg hfl]
        exact ih (fun j hj => h j (Nat.le_succ_of_le hj))

/-- A `takeWhile` over a satisfying block continues past it. -/
theorem takeWhile_append_all (f : Char → Bool) :
    ∀ (a b : List Char), (∀ c ∈ a, f c = true) →
      (a ++ b).takeWhile f = a ++ b.takeWhile f := by
  intro a
  induction a with
  | nil => intro b _; simp
  | cons c a ih =>
      intro b h
      simp only [List.cons_append, List.takeWhile_cons, h c (List.mem_cons_self c a),
        if_true]
      rw [ih b (fun d hd => h d (List.mem_cons_of_mem c hd))]

/-- A `takeWhile` stops at a failing head. -/
theorem takeWhile_cons_neg (f : Char → Bool) (c : Char) (t : List Char)
    (h : f c = false) : (c :: t).takeWhile f = [] := by
  simp [List.takeWhile_cons, h]

/-- Number of literal occurrences of a character in a pattern. -/
def litCount (c : Char) (p : List RItem) : Nat :=
  p.countP (fun it => it == RItem.lit c)

/-- Every literal occurrence of a character in a matched pattern consumes
that character, so the text holds at least as many copies. -/
theorem mat_litCount_le (c : Char) :
    ∀ (p : List RItem) (st st' : MSt), mat p st = some st' →
      litCount c p ≤ st.rem.count c := by
  intro p
  induction p with
  | nil => intro st st' _; exact Nat.zero_le _
  | cons it ps ih =>
      intro st st' h
      have hdropLe : ∀ (n : Nat) (r : List Char), (r.drop n).count c ≤ r.count c :=
        fun n r => (List.drop_sublist n r).count_le c
      cases it with
      | lit d =>
          obtain ⟨rem, opens, caps⟩ := st
          cases rem with
          | nil => simp [mat] at h
          | cons e t =>
              simp only [mat] at h
              by_cases he : e = d
              · rw [if_pos he] at h
                have hle := ih ⟨t, opens, caps⟩ st' h
                subst he
                by_cases hc : e = c
                · subst hc
                  simp only [litCount, List.countP_cons, List.count_cons]
                  simp only [litCount] at hle
                  simp only [beq_self_eq_true, if_pos rfl]
                  omega
                · simp only [litCount, List.countP_cons, List.count_cons]
                  simp only [litCount] at hle
                  have h1 : (RItem.lit e == RItem.lit c) = false := by
                    simp [hc]
                  have h2 : (e == c) = false := by
                    simp [hc]
                  rw [h1, h2]
                  simpa using hle
              · rw [if_neg he] at h; cases h
      | clsStar cc =>
          simp only [mat] at h
          obtain ⟨j, _, hfj, _⟩ := tryFrom_eq_some _ _ _ _ h
          have hle := ih _ _ hfj
          have hlit : litCount c (RItem.clsStar cc :: ps) = litCount c ps := by
            simp [litCount, List.countP_cons]
          rw [hlit]
          exact hle.trans (hdropLe j st.rem)
      | clsPlus cc =>
          simp only [mat] at h
          split at h
          · cases h
          · obtain ⟨j, _, hfj, _⟩ := tryFrom_eq_some _ _ _ _ h
            have hle := ih _ _ hfj
            have hlit : litCount c (RItem.clsPlus cc :: ps) = litCount c ps := by
              simp [litCount, List.countP_cons]
            rw [hlit]
            exact hle.trans (hdropLe j st.rem)
      | openG i =>
          simp only [mat] at h
          have hle := ih _ _ h
          have hlit : litCount c (RItem.openG i :: ps) = litCount c ps := by
            simp [litCount, List.countP_cons]
          rw [hlit]
          exact hle
      | closeG i =>
          obtain ⟨rem, opens, caps⟩ := st
          cases opens with
          | nil => simp [mat] at h
          | cons p0 rest =>
              obtain ⟨j0, r0⟩ := p0
              simp only [mat] at h
              by_cases hj : j0 = i
              · rw [if_pos hj] at h
                have hle := ih _ _ h
                have hlit : litCount c (RItem.closeG i :: ps) = litCount c ps := by
                  simp [litCount, List.countP_cons]
                rw [hlit]
                exact hle
              · rw [if_neg hj] at h; cases h
      | backref i =>
          simp only [mat] at h
          split at h
          · have hle := ih _ _ h
            have hlit : litCount c (RItem.backref i :: ps) = litCount c ps := by
              simp [litCount, List.countP_cons]
            rw [hlit]
            exact hle.trans (hdropLe _ st.rem)
          · cases h

/-- A pattern demanding more copies of a literal than the text holds
cannot match. -/
theorem mat_none_of_count (c : Char) (p : List RItem) (st : MSt)
    (h : st.rem.count c < litCount c p) : mat p st = none := by
  cases hm : mat p st with
  | none => rfl
  | some st' => exact absurd (mat_litCount_le c p st st' hm) (by omega)

/-- Step equation: empty pattern. -/
theorem mat_nil (st : MSt) : mat [] st = some st := rfl

/-- Step equation: literal against a cons. -/
theorem mat_lit_cons (c : Char) (ps : List RItem) (c2 : Char) (t : List Char)
    (o cp : List (Nat × List Char)) :
    mat (.lit c :: ps) ⟨c2 :: t, o, cp⟩ =
      if c2 = c then mat ps ⟨t, o, cp⟩ else none := rfl

/-- Step equation: literal against the empty text. -/
theorem mat_lit_nil (c : Char) (ps : List RItem) (o cp : List (Nat × List Char)) :
    mat (.lit c :: ps) ⟨[], o, cp⟩ = none := rfl

/-- Step equation: starred class. -/
theorem mat_clsStar (cc : CCls) (ps : List RItem) (st : MSt) :
    mat (.clsStar cc :: ps) st =
      tryFrom (fun k => mat ps ⟨st.rem.drop k, st.opens, st.caps⟩) 0
        ((st.rem.takeWhile cc.test).length) := rfl

/-- Step equation: plussed class. -/
theorem mat_clsPlus (cc : CCls) (ps : List RItem) (st : MSt) :
    mat (.clsPlus cc :: ps) st =
      if (st.rem.takeWhile cc.test).length = 0 then none
      else tryFrom (fun k => mat ps ⟨st.rem.drop k, st.opens, st.caps⟩) 1
        ((st.rem.takeWhile cc.test).length) := rfl

/-- Step equation: opening a group. -/
theorem mat_openG (i : Nat) (ps : List RItem) (st : MSt) :
    mat (.openG i :: ps) st =
      mat ps ⟨st.rem, (i, st.rem) :: st.opens, st.caps⟩ := rfl

/-- Step equation: closing the innermost group. -/
theorem mat_closeG_cons (i : Nat) (ps : List RItem) (j0 : Nat) (r0 : List Char)
    (os : List (Nat × List Char)) (rem : List Char) (cp : List (Nat × List Char)) :
    mat (.closeG i :: ps) ⟨rem, (j0, r0) :: os, cp⟩ =
      if j0 = i then
        mat ps ⟨rem, os, (i, r0.take (r0.length - rem.length)) :: cp⟩
      else none := rfl

/-- Step equation: backreference. -/
theorem mat_backref (i : Nat) (ps : List RItem) (st : MSt) :
    mat (.backref i :: ps) st =
      if (getCap i st.caps).isPrefixOf st.rem then
        mat ps ⟨st.rem.drop (getCap i st.caps).length, st.opens, st.caps⟩
      else none := rfl

/-- Characters inside the committed extent of a greedy class satisfy the
class test. -/
theorem all_take_of_le_takeWhile (f : Char → Bool) :
    ∀ (l : List Char) (j : Nat), j ≤ (l.takeWhile f).length →
      ∀ c ∈ l.take j, f c = true := by
  intro l
  induction l with
  | nil => intro j _ c hc; simp at hc
  | cons d t ih =>
      intro j hj c hc
      by_cases hd : f d = true
      · rw [List.takeWhile_cons, if_pos hd] at hj
        cases j with
        | zero => simp at hc
        | succ j =>
            rw [List.take_succ_cons] at hc
            rcases List.mem_cons.mp hc with h1 | h1
            · rw [h1]; exact hd
            · exact ih j (by simp at hj; omega) c h1
      · rw [List.takeWhile_cons, if_neg hd] at hj
        simp only [List.length_nil, Nat.le_zero] at hj
        subst hj
        simp at hc

/-- A suffix of a concatenation is a suffix of the right part, or extends
the right part by a suffix of the left part. -/
theorem suffix_append_split {u a b : List Char} (h : u <:+ a ++ b) :
    u <:+ b ∨ ∃ y, y <:+ a ∧ u = y ++ b := by
  induction a with
  | nil => left; simpa using h
  | cons c a ih =>
      rw [List.cons_append] at h
      rcases List.suffix_cons_iff.mp h with h1 | h1
      · right
        exact ⟨c :: a, List.suffix_refl _, by rw [h1, List.cons_append]⟩
      · rcases ih h1 with h2 | ⟨y, hy, hu⟩
        · left; exact h2
        · right; exact ⟨y, hy.trans (List.suffix_cons c a), hu⟩

/-- Two decompositions of a text at its first comma agree. -/
theorem comma_split_unique :
    ∀ (a c b d : List Char), (∀ x ∈ a, x ≠ ',') → (∀ x ∈ c, x ≠ ',') →
      a ++ ',' :: b = c ++ ',' :: d → a = c ∧ b = d := by
  intro a
  induction a with
  | nil =>
      intro c b d _ hc h
      cases c with
      | nil =>
          simp only [List.nil_append] at h
          exact ⟨rfl, (List.cons.injEq .. ▸ h).2⟩
      | cons e c2 =>
          simp only [List.nil_append, List.cons_append] at h
          have he := (List.cons.injEq .. ▸ h).1
          exact absurd he.symm (hc e (List.mem_cons_self e c2))
  | cons e a2 ih =>
      intro c b d ha hc h
      cases c with
      | nil =>
          simp only [List.nil_append, List.cons_append] at h
          have he := (List.cons.injEq .. ▸ h).1
          exact absurd he (ha e (List.mem_cons_self e a2))
      | cons f c2 =>
          simp only [List.cons_append] at h
          have he := (List.cons.injEq .. ▸ h).1
          have ht := (List.cons.injEq .. ▸ h).2
          obtain ⟨h1, h2⟩ := ih c2 b d
            (fun x hx => ha x (List.mem_cons_of_mem e hx))
            (fun x hx => hc x (List.mem_cons_of_mem f hx)) ht
          exact ⟨by rw [he, h1], h2⟩

/-- Scanning finds nothing when the pattern matches at no suffix. -/
theorem firstMatch_eq_none_of (p : List RItem) :
    ∀ s, (∀ u, u <:+ s → mat p ⟨u, [], []⟩ = none) → firstMatch p s = none := by
  intro s
  induction s with
  | nil => intro _; rfl
  | cons c t ih =>
      intro h
      have h0 : mat p ⟨c :: t, [], []⟩ = none := h (c :: t) (List.suffix_refl _)
      have ht : firstMatch p t = none :=
        ih (fun u hu => h u (hu.trans (List.suffix_cons c t)))
      simp only [firstMatch, h0, ht]

/-- When the pattern consumes the whole text from the first position, the
scan returns that single full match. -/
theorem firstMatch_full (p : List RItem) (c : Char) (t : List Char)
    (o cps : List (Nat × List Char))
    (h : mat p ⟨c :: t, [], []⟩ = some ⟨[], o, cps⟩) :
    firstMatch p (c :: t) = some ([], c :: t, cps, []) := by
  simp only [firstMatch, h]
  rw [if_pos (by simp)]
  simp

/-- The committed extent of a greedy class is bounded by the text length. -/
theorem takeWhile_length_le (f : Char → Bool) :
    ∀ l : List Char, (l.takeWhile f).length ≤ l.length := by
  intro l
  induction l with
  | nil => exact Nat.le_refl 0
  | cons c t ih =>
      rw [List.takeWhile_cons]
      by_cases hc : f c = true
      · rw [if_pos hc]
        simpa using ih
      · rw [if_neg hc]
        simp

/-- A match of an anchored pattern decomposes the text: the literal prefix
`logger.error(`, a nonempty comma-free group-1 capture, the comma, and a
tail matched by the pattern's remainder with the capture recorded. -/
theorem mat_anchor_decomp (rest : List RItem) (s : List Char) (st' : MSt)
    (h : mat (anchorItems ++ rest) ⟨s, [], []⟩ = some st') :
    ∃ g1 u, s = "logger.error(".data ++ g1 ++ ',' :: u ∧ g1 ≠ [] ∧
      (∀ c ∈ g1, c ≠ ',') ∧ mat rest ⟨u, [], [(1, g1)]⟩ = some st' := by
  unfold anchorItems at h
  rw [List.append_assoc, mat_lits_append] at h
  cases hstrip : stripPre "logger.error(".data s with
  | none => rw [hstrip] at h; cases h
  | some r =>
      rw [hstrip] at h
      have hs : s = "logger.error(".data ++ r := (stripPre_eq_some_iff _ _ _).mp hstrip
      simp only [List.cons_append, List.nil_append] at h
      rw [mat_openG, mat_clsPlus] at h
      dsimp only at h
      by_cases hrun : ((r.takeWhile CCls.notComma.test).length = 0)
      · rw [if_pos hrun] at h; cases h
      · rw [if_neg hrun] at h
        obtain ⟨j, hj, hfj, hfloor⟩ := tryFrom_eq_some _ _ _ _ h
        have hj1 : 1 ≤ j := by
          rcases hfloor with h1 | h1
          · exact h1
          · rw [h1]
            omega
        have hjr : j ≤ r.length :=
          hj.trans (takeWhile_length_le CCls.notComma.test r)
        rw [mat_closeG_cons, if_pos rfl] at hfj
        have hcap : r.take (r.length - (r.drop j).length) = r.take j := by
          rw [List.length_drop]
          congr 1
          omega
        rw [hcap] at hfj
        cases hdrop : r.drop j with
        | nil => rw [hdrop, mat_lit_nil] at hfj; cases hfj
        | cons e u =>
            rw [hdrop, mat_lit_cons] at hfj
            by_cases he : e = ','
            · rw [if_pos he] at hfj
              subst he
              refine ⟨r.take j, u, ?_, ?_, ?_, hfj⟩
              · rw [hs]
                have : r = r.take j ++ r.drop j := (List.take_append_drop j r).symm
                rw [List.append_assoc]
                congr 1
                rw [hdrop] at this
                exact this
              · have : (r.take j).length = j := by
                  rw [List.length_take]
                  omega
                intro hnil
                rw [hnil] at this
                simp at this
                omega
              · intro c hc
                have := all_take_of_le_takeWhile CCls.notComma.test r j hj c hc
                simp only [CCls.test, Bool.not_eq_true'] at this
                intro hceq
                rw [hceq] at this
                simp at this
            · rw [if_neg he] at hfj; cases hfj

/-- Converse of the decomposition: an anchored pattern matches a text of
the decomposed shape whenever the remainder matches the tail (the greedy
group commits exactly to the comma-free block, which is its longest
extent). -/
theorem mat_anchor_pos (rest : List RItem) (x u : List Char) (st' : MSt)
    (hx : x ≠ []) (hc : ∀ c ∈ x, c ≠ ',')
    (h : mat rest ⟨u, [], [(1, x)]⟩ = some st') :
    mat (anchorItems ++ rest) ⟨"logger.error(".data ++ x ++ ',' :: u, [], []⟩ =
      some st' := by
  unfold anchorItems
  rw [List.append_assoc, mat_lits_append]
  have hstrip : stripPre "logger.error(".data
      ("logger.error(".data ++ (x ++ ',' :: u)) = some (x ++ ',' :: u) :=
    (stripPre_eq_some_iff _ _ _).mpr rfl
  rw [show "logger.error(".data ++ x ++ ',' :: u =
      "logger.error(".data ++ (x ++ ',' :: u) from by rw [List.append_assoc]]
  rw [hstrip]
  simp only [List.cons_append, List.nil_append]
  rw [mat_openG, mat_clsPlus]
  have hall : ∀ c ∈ x, CCls.notComma.test c = true := by
    intro c hcm
    simp only [CCls.test, Bool.not_eq_true']
    exact beq_eq_false_iff_ne.mpr (hc c hcm)
  have htw : ((x ++ ',' :: u).takeWhile CCls.notComma.test) = x := by
    rw [takeWhile_append_all _ x (',' :: u) hall]
    rw [takeWhile_cons_neg]
    · simp
    · simp [CCls.test]
  rw [htw]
  have hxlen : x.length ≠ 0 := by
    intro h0
    exact hx (List.length_eq_zero.mp h0)
  rw [if_neg hxlen]
  apply tryFrom_top
  rw [show (x ++ ',' :: u).drop x.length = ',' :: u from List.drop_left x (',' :: u)]
  rw [mat_closeG_cons, if_pos rfl]
  have hcap : (x ++ ',' :: u).take ((x ++ ',' :: u).length - (',' :: u).length) = x := by
    have hlen : (x ++ ',' :: u).length - (',' :: u).length = x.length := by
      rw [List.length_append]
      omega
    rw [hlen]
    exact List.take_left x (',' :: u)
  rw [hcap, mat_lit_cons, if_pos rfl]
  exact h

/-- Test for a backreference item. -/
def isCapRefItem : RItem → Bool
  | .backref _ => true
  | _ => false

/-- A pattern fragment is capture-blind when it contains no backreference. -/
def noCapRef (p : List RItem) : Bool :=
  p.all (fun it => !(isCapRefItem it))

/-- The greedy loop commutes with a mapping of the result. -/
theorem tryFrom_map (f : Nat → Option MSt) (φ : MSt → MSt) (floor : Nat) :
    ∀ k, tryFrom (fun j => (f j).map φ) floor k = (tryFrom f floor k).map φ := by
  intro k
  induction k with
  | zero => rfl
  | succ k ih =>
      cases hf : f (k + 1) with
      | some r => simp only [tryFrom, hf, Option.map_some']
      | none =>
          simp only [tryFrom, hf, Option.map_none']
          by_cases hfl : k + 1 ≤ floor
          · simp only [if_pos hfl, Option.map_none']
          · simp only [if_neg hfl]
            exact ih

/-- A capture-blind pattern fragment behaves the same over any extension of
the capture list: the extension rides along untouched. -/
theorem mat_caps_ext (p : List RItem) (hnb : noCapRef p = true) :
    ∀ (r : List Char) (o c cs : List (Nat × List Char)),
      mat p ⟨r, o, c ++ cs⟩ =
        (mat p ⟨r, o, c⟩).map (fun st => ⟨st.rem, st.opens, st.caps ++ cs⟩) := by
  induction p with
  | nil => intro r o c cs; rfl
  | cons it ps ih =>
      have hhd : (!(isCapRefItem it)) = true :=
        (List.all_eq_true.mp hnb) it (List.mem_cons_self it ps)
      have hps : noCapRef ps = true := by
        apply List.all_eq_true.mpr
        intro it2 h2
        exact (List.all_eq_true.mp hnb) it2 (List.mem_cons_of_mem it h2)
      intro r o c cs
      cases it with
      | lit d =>
          cases r with
          | nil => rfl
          | cons e t =>
              rw [mat_lit_cons, mat_lit_cons]
              by_cases he : e = d
              · rw [if_pos he, if_pos he]
                exact ih hps t o c cs
              · rw [if_neg he, if_neg he]
                rfl
      | clsStar cc =>
          rw [mat_clsStar, mat_clsStar]
          simp only
          rw [show (fun k => mat ps ⟨r.drop k, o, c ++ cs⟩) = fun k =>
              (mat ps ⟨r.drop k, o, c⟩).map
                (fun st => ⟨st.rem, st.opens, st.caps ++ cs⟩) from
            funext (fun k => ih hps (r.drop k) o c cs)]
          exact tryFrom_map _ _ 0 _
      | clsPlus cc =>
          rw [mat_clsPlus, mat_clsPlus]
          by_cases hrun : ((r.takeWhile cc.test).length = 0)
          · rw [if_pos hrun, if_pos hrun]
            rfl
          · rw [if_neg hrun, if_neg hrun]
            rw [show (fun k => mat ps ⟨r.drop k, o, c ++ cs⟩) = fun k =>
                (mat ps ⟨r.drop k, o, c⟩).map
                  (fun st => ⟨st.rem, st.opens, st.caps ++ cs⟩) from
              funext (fun k => ih hps (r.drop k) o c cs)]
            exact tryFrom_map _ _ 1 _
      | openG i =>
          rw [mat_openG, mat_openG]
          exact ih hps r ((i, r) :: o) c cs
      | closeG i =>
          cases o with
          | nil => rfl
          | cons p0 os =>
              obtain ⟨j0, r0⟩ := p0
              rw [mat_closeG_cons, mat_closeG_cons]
              by_cases hj : j0 = i
              · rw [if_pos hj, if_pos hj]
                rw [show (i, r0.take (r0.length - r.length)) :: (c ++ cs) =
                    ((i, r0.take (r0.length - r.length)) :: c) ++ cs from rfl]
                exact ih hps r os _ cs
              · rw [if_neg hj, if_neg hj]
                rfl
      | backref i => simp [isCapRefItem] at hhd

/-- Counting without a leftmost match yields zero. -/
theorem reCount_eq_zero (p : List RItem) (s : List Char)
    (h : firstMatch p s = none) : reCount p s = 0 := by
  rw [reCount_eq, h]

/-- Substitution without a leftmost match is the identity. -/
theorem reSub_eq_self (p : List RItem) (repl : List (Nat × List Char) → List Char)
    (s : List Char) (h : firstMatch p s = none) : reSub p repl s = s := by
  rw [reSub_eq, h]

/-- Substitution in the empty text. -/
theorem reSub_nil (p : List RItem) (repl : List (Nat × List Char) → List Char) :
    reSub p repl [] = [] := rfl

/-- Counting in the empty text. -/
theorem reCount_nil (p : List RItem) : reCount p [] = 0 := rfl

/-- A rule with no match in the content leaves it unchanged and counts 0. -/
theorem applyRule_of_zero (c : List Char) (r : Rule)
    (h : reCount r.search c = 0) : applyRule c r = (c, 0) := by
  simp [applyRule, h]

/-- A firing rule substitutes globally and counts its matches. -/
theorem applyRule_of_fire (c : List Char) (r : Rule) (n : Nat) (out : List Char)
    (hn : reCount r.search c = n) (h0 : 0 < n)
    (hs : reSub r.search r.replace c = out) : applyRule c r = (out, n) := by
  simp only [applyRule, hn, hs, if_pos h0]

/-- A capture-blind remainder failing on a tail with empty captures fails
with any captures. -/
theorem mat_rest_none_transport (rest : List RItem) (B : List Char)
    (hnb : noCapRef rest = true) (hnone : mat rest ⟨B, [], []⟩ = none)
    (cs : List (Nat × List Char)) : mat rest ⟨B, [], cs⟩ = none := by
  have h := mat_caps_ext rest hnb B [] [] cs
  rw [List.nil_append] at h
  rw [h, hnone]
  rfl

/-- Master no-match lemma: an anchored pattern has no match anywhere in a
text of the shape `logger.error(` ++ comma-free block ++ `,` ++ comma-free
tail, provided its remainder fails on the tail under every capture.  Each
candidate anchor position is forced to split the text at its unique comma,
putting the remainder on the fixed tail. -/
theorem noMatch_anchored (rest : List RItem) (x B : List Char)
    (hx : ∀ c ∈ x, c ≠ ',') (hB : ∀ c ∈ B, c ≠ ',')
    (hrest : ∀ g1, mat rest ⟨B, [], [(1, g1)]⟩ = none) :
    firstMatch (anchorItems ++ rest)
      ("logger.error(".data ++ x ++ ',' :: B) = none := by
  apply firstMatch_eq_none_of
  intro u hu
  have hA : ∀ c ∈ "logger.error(".data ++ x, c ≠ ',' := by
    intro c hcm
    rcases List.mem_append.mp hcm with h1 | h1
    · intro he; subst he; revert h1; decide
    · exact hx c h1
  rw [show "logger.error(".data ++ x ++ ',' :: B =
      ("logger.error(".data ++ x) ++ ',' :: B from by rw [List.append_assoc]] at hu
  rcases suffix_append_split hu with h1 | ⟨y, hy, huy⟩
  · rcases List.suffix_cons_iff.mp h1 with h2 | h2
    · subst h2
      cases hm : mat (anchorItems ++ rest) ⟨',' :: B, [], []⟩ with
      | none => rfl
      | some st' =>
          obtain ⟨g1, u', heq, -, hg1c, -⟩ := mat_anchor_decomp rest _ _ hm
          rw [show "logger.error(".data ++ g1 ++ ',' :: u' =
              ("logger.error(".data ++ g1) ++ ',' :: u' from by
            rw [List.append_assoc]] at heq
          have hlg : ∀ c ∈ "logger.error(".data ++ g1, c ≠ ',' := by
            intro c hcm
            rcases List.mem_append.mp hcm with hh | hh
            · intro he; subst he; revert hh; decide
            · exact hg1c c hh
          obtain ⟨hempty, -⟩ := comma_split_unique [] ("logger.error(".data ++ g1)
            B u' (by simp) hlg (by rw [List.nil_append]; exact heq)
          have hlen := congrArg List.length hempty
          simp at hlen
    · apply mat_none_of_count ','
      have hcnt : u.count ',' = 0 := by
        rw [List.count_eq_zero]
        intro hmem
        exact hB ',' (h2.subset hmem) rfl
      have h1c : 1 ≤ litCount ',' anchorItems := by decide
      have happ : litCount ',' (anchorItems ++ rest) =
          litCount ',' anchorItems + litCount ',' rest := by
        simp [litCount, List.countP_append]
      show u.count ',' < litCount ',' (anchorItems ++ rest)
      rw [hcnt, happ]
      omega
  · subst huy
    have hyc : ∀ c ∈ y, c ≠ ',' := fun c hcm => hA c (hy.subset hcm)
    cases hm : mat (anchorItems ++ rest) ⟨y ++ ',' :: B, [], []⟩ with
    | none => rfl
    | some st' =>
        obtain ⟨g1, u', heq, -, hg1c, hmr⟩ := mat_anchor_decomp rest _ _ hm
        rw [show "logger.error(".data ++ g1 ++ ',' :: u' =
            ("logger.error(".data ++ g1) ++ ',' :: u' from by
          rw [List.append_assoc]] at heq
        have hlg : ∀ c ∈ "logger.error(".data ++ g1, c ≠ ',' := by
          intro c hcm
          rcases List.mem_append.mp hcm with hh | hh
          · intro he; subst he; revert hh; decide
          · exact hg1c c hh
        obtain ⟨-, hBu⟩ := comma_split_unique y ("logger.error(".data ++ g1)
          B u' hyc hlg heq
        rw [← hBu] at hmr
        rw [hrest g1] at hmr
        cases hmr

/-- C9: the rule table's extra shape beyond the spec's seven rules: a call
site of the exact shape `logger.error(X, \x7b error: result.error \x7d)` --
for any nonempty comma-free first argument X -- is rewritten by the full
pass to `logger.error(X, new Error(result.error))`, and no other rule of
the table touches the call site before or after. -/
theorem c9_result_error_rewrite (x : List Char) (hx : x ≠ []) (hc : ∀ c ∈ x, c ≠ ',') :
    applyPatterns PATTERNS
        ("logger.error(".data ++ x ++ ", \x7b error: result.error \x7d)".data) =
      ("logger.error(".data ++ x ++ ", new Error(result.error))".data, 1) := by
  have hBcf : ∀ c ∈ " \x7b error: result.error \x7d)".data, c ≠ ',' := by decide
  have hBcf2 : ∀ c ∈ " new Error(result.error))".data, c ≠ ',' := by decide
  have hCsplit : ("logger.error(".data ++ x ++ ", \x7b error: result.error \x7d)".data) =
      "logger.error(".data ++ x ++ ',' :: " \x7b error: result.error \x7d)".data := rfl
  have hRsplit : ("logger.error(".data ++ x ++ ", new Error(result.error))".data) =
      "logger.error(".data ++ x ++ ',' :: " new Error(result.error))".data := rfl
  -- rules 0-3 have no match in the input
  have hfm0 : firstMatch searchErrorMessageComma
      ("logger.error(".data ++ x ++ ", \x7b error: result.error \x7d)".data) = none := by
    rw [hCsplit]
    exact noMatch_anchored restErrorMessageComma x _ hc hBcf
      (fun g1 => mat_none_of_count ',' _ _
        (show (" \x7b error: result.error \x7d)".data).count ',' <
          litCount ',' restErrorMessageComma from by decide))
  have hfm1 : firstMatch searchErrorMessageOnly
      ("logger.error(".data ++ x ++ ", \x7b error: result.error \x7d)".data) = none := by
    rw [hCsplit]
    exact noMatch_anchored restErrorMessageOnly x _ hc hBcf
      (fun g1 => mat_rest_none_transport _ _ (by decide) (by decide) _)
  have hfm2 : firstMatch searchDotMessageComma
      ("logger.error(".data ++ x ++ ", \x7b error: result.error \x7d)".data) = none := by
    rw [hCsplit]
    exact noMatch_anchored restDotMessageComma x _ hc hBcf
      (fun g1 => mat_none_of_count ',' _ _
        (show (" \x7b error: result.error \x7d)".data).count ',' <
          litCount ',' restDotMessageComma from by decide))
  have hfm3 : firstMatch searchDotMessageOnly
      ("logger.error(".data ++ x ++ ", \x7b error: result.error \x7d)".data) = none := by
    rw [hCsplit]
    exact noMatch_anchored restDotMessageOnly x _ hc hBcf
      (fun g1 => mat_rest_none_transport _ _ (by decide) (by decide) _)
  -- rule 4 fires, consuming the whole call site
  have hrest4 : mat restResultError ⟨" \x7b error: result.error \x7d)".data, [], [(1, x)]⟩ =
      some ⟨[], [], [(1, x)]⟩ := by
    have h := mat_caps_ext restResultError (by decide)
      " \x7b error: result.error \x7d)".data [] [] [(1, x)]
    rw [List.nil_append] at h
    rw [h, show mat restResultError ⟨" \x7b error: result.error \x7d)".data, [], []⟩ =
      some ⟨[], [], []⟩ from by decide]
    rfl
  have hmat4 : mat searchResultError
      ⟨"logger.error(".data ++ x ++ ',' :: " \x7b error: result.error \x7d)".data, [], []⟩ =
      some ⟨[], [], [(1, x)]⟩ := by
    unfold searchResultError
    exact mat_anchor_pos restResultError x _ _ hx hc hrest4
  have hconsC : "logger.error(".data ++ x ++ ',' :: " \x7b error: result.error \x7d)".data =
      'l' :: ("ogger.error(".data ++ x ++ ',' :: " \x7b error: result.error \x7d)".data) := rfl
  have hfm4 : firstMatch searchResultError
      ("logger.error(".data ++ x ++ ", \x7b error: result.error \x7d)".data) =
      some ([], "logger.error(".data ++ x ++ ',' :: " \x7b error: result.error \x7d)".data,
        [(1, x)], []) := by
    rw [hCsplit, hconsC]
    exact firstMatch_full searchResultError _ _ _ _ (hconsC ▸ hmat4)
  have hcnt4 : reCount searchResultError
      ("logger.error(".data ++ x ++ ", \x7b error: result.error \x7d)".data) = 1 := by
    rw [reCount_eq, hfm4]
    simp [reCount_nil]
  have hsub4 : reSub searchResultError replaceResultError
      ("logger.error(".data ++ x ++ ", \x7b error: result.error \x7d)".data) =
      "logger.error(".data ++ x ++ ", new Error(result.error))".data := by
    rw [reSub_eq, hfm4]
    simp [replaceResultError, getCap, reSub_nil]
  -- rules 5-7 have no match in the rewritten content
  have hfm5 : firstMatch searchConditional
      ("logger.error(".data ++ x ++ ", new Error(result.error))".data) = none := by
    rw [hRsplit]
    exact noMatch_anchored restConditional x _ hc hBcf2
      (fun g1 => mat_rest_none_transport _ _ (by decide) (by decide) _)
  have hfm6 : firstMatch searchNamedError
      ("logger.error(".data ++ x ++ ", new Error(result.error))".data) = none := by
    rw [hRsplit]
    exact noMatch_anchored restNamedError x _ hc hBcf2
      (fun g1 => mat_none_of_count ',' _ _
        (show (" new Error(result.error))".data).count ',' <
          litCount ',' restNamedError from by decide))
  have hfm7 : firstMatch searchStack
      ("logger.error(".data ++ x ++ ", new Error(result.error))".data) = none := by
    rw [hRsplit]
    exact noMatch_anchored restStack x _ hc hBcf2
      (fun g1 => mat_none_of_count ',' _ _
        (show (" new Error(result.error))".data).count ',' <
          litCount ',' restStack from by decide))
  -- assemble the engine pass
  have e0 := applyRule_of_zero _ ⟨searchErrorMessageComma, replaceErrorMessageComma⟩
    (reCount_eq_zero _ _ hfm0)
  have e1 := applyRule_of_zero _ ⟨searchErrorMessageOnly, replaceErrorMessageOnly⟩
    (reCount_eq_zero _ _ hfm1)
  have e2 := applyRule_of_zero _ ⟨searchDotMessageComma, replaceDotMessageComma⟩
    (reCount_eq_zero _ _ hfm2)
  have e3 := applyRule_of_zero _ ⟨searchDotMessageOnly, replaceDotMessageOnly⟩
    (reCount_eq_zero _ _ hfm3)
  have e4 := applyRule_of_fire _ ⟨searchResultError, replaceResultError⟩ 1 _
    hcnt4 (by omega) hsub4
  have e5 := applyRule_of_zero _ ⟨searchConditional, replaceConditional⟩
    (reCount_eq_zero _ _ hfm5)
  have e6 := applyRule_of_zero _ ⟨searchNamedError, replaceNamedError⟩
    (reCount_eq_zero _ _ hfm6)
  have e7 := applyRule_of_zero _ ⟨searchStack, replaceStack⟩
    (reCount_eq_zero _ _ hfm7)
  simp only [PATTERNS, applyPatterns, e0, e1, e2, e3, e4, e5, e6, e7]

/-- Witness for C9 at the concrete first argument `msg`. -/
theorem c9_result_error_rewrite_witness :
    applyPatterns PATTERNS
        ("logger.error(".data ++ "msg".data ++ ", \x7b error: result.error \x7d)".data) =
      ("logger.error(".data ++ "msg".data ++ ", new Error(result.error))".data, 1) :=
  c9_result_error_rewrite "msg".data (by decide) (by decide)

/-- PATTERNS[1]'s remainder cannot match a tail that continues with
`err instanceof ...` after `error:`: the literal `errorMessage` fails at its
fourth character, before the abstract part of the tail is reached. -/
theorem restErrorMessageOnly_fail (tail : List Char) (cs : List (Nat × List Char)) :
    mat restErrorMessageOnly ⟨" \x7b error: err ".data ++ tail, [], cs⟩ = none := by
  have htxt : " \x7b error: err ".data ++ tail =
      ' ' :: '\x7b' :: ' ' :: 'e' :: 'r' :: 'r' :: 'o' :: 'r' :: ':' :: ' ' ::
      'e' :: 'r' :: 'r' :: ' ' :: tail := rfl
  rw [htxt]
  simp [restErrorMessageOnly, lits, spaceStar, mat, tryFrom, CCls.test, isSpaceChar,
    List.takeWhile_cons]

/-- PATTERNS[3]'s remainder cannot match such a tail: the identifier run
stops at `err` and the literal `.message` fails immediately. -/
theorem restDotMessageOnly_fail (tail : List Char) (cs : List (Nat × List Char)) :
    mat restDotMessageOnly ⟨" \x7b error: err ".data ++ tail, [], cs⟩ = none := by
  have htxt : " \x7b error: err ".data ++ tail =
      ' ' :: '\x7b' :: ' ' :: 'e' :: 'r' :: 'r' :: 'o' :: 'r' :: ':' :: ' ' ::
      'e' :: 'r' :: 'r' :: ' ' :: tail := rfl
  rw [htxt]
  simp [restDotMessageOnly, lits, spaceStar, mat, tryFrom, CCls.test, isSpaceChar,
    isIdentChar, List.takeWhile_cons]

/-- PATTERNS[4]'s remainder cannot match such a tail: the literal
`result.error` fails at its first character. -/
theorem restResultError_fail (tail : List Char) (cs : List (Nat × List Char)) :
    mat restResultError ⟨" \x7b error: err ".data ++ tail, [], cs⟩ = none := by
  have htxt : " \x7b error: err ".data ++ tail =
      ' ' :: '\x7b' :: ' ' :: 'e' :: 'r' :: 'r' :: 'o' :: 'r' :: ':' :: ' ' ::
      'e' :: 'r' :: 'r' :: ' ' :: tail := rfl
  rw [htxt]
  simp [restResultError, lits, spaceStar, mat, tryFrom, CCls.test, isSpaceChar,
    List.takeWhile_cons]

/-- PATTERNS[5]'s remainder consumes the whole conditional tail: the
space-starred separators commit to single spaces, the fallback class
commits to the fallback expression plus the following space, and the
closing brace and parenthesis finish the text. -/
theorem restConditional_match (f0 : Char) (fb' : List Char)
    (cs : List (Nat × List Char)) (hf0s : isSpaceChar f0 = false)
    (hfb : ∀ c ∈ f0 :: fb', CCls.notCommaBrace.test c = true) :
    mat restConditional
      ⟨" \x7b error: err instanceof Error ? err.message : ".data ++
        ((f0 :: fb') ++ " \x7d)".data), [], cs⟩ = some ⟨[], [], cs⟩ := by
  have h1 : List.takeWhile CCls.space.test (f0 :: (fb' ++ [' ', '\x7d', ')'])) = [] := by
    apply takeWhile_cons_neg
    simp [CCls.test, hf0s]
  have h2 : List.takeWhile CCls.notCommaBrace.test (f0 :: (fb' ++ [' ', '\x7d', ')'])) =
      f0 :: (fb' ++ [' ']) := by
    have h := takeWhile_append_all CCls.notCommaBrace.test (f0 :: fb') [' ', '\x7d', ')'] hfb
    simp only [List.cons_append] at h
    rw [h]
    rfl
  have h3 : List.drop (fb'.length + 2) (f0 :: (fb' ++ [' ', '\x7d', ')'])) = ['\x7d', ')'] := by
    rw [show fb'.length + 2 = (fb'.length + 1) + 1 from rfl, List.drop_succ_cons]
    exact List.drop_append 1
  have htxt : " \x7b error: err instanceof Error ? err.message : ".data ++
      ((f0 :: fb') ++ " \x7d)".data) =
      ' ' :: '\x7b' :: ' ' :: 'e' :: 'r' :: 'r' :: 'o' :: 'r' :: ':' :: ' ' ::
      'e' :: 'r' :: 'r' :: ' ' :: 'i' :: 'n' :: 's' :: 't' :: 'a' :: 'n' :: 'c' ::
      'e' :: 'o' :: 'f' :: ' ' :: 'E' :: 'r' :: 'r' :: 'o' :: 'r' :: ' ' :: '?' ::
      ' ' :: 'e' :: 'r' :: 'r' :: '.' :: 'm' :: 'e' :: 's' :: 's' :: 'a' :: 'g' ::
      'e' :: ' ' :: ':' :: ' ' :: f0 :: (fb' ++ [' ', '\x7d', ')']) := rfl
  rw [htxt]
  simp [mat, tryFrom, CCls.test, isSpaceChar, List.takeWhile_cons, h1, h2, h3]

/-- C3 amended: for a call site passing `error` bound to the conditional
`err instanceof Error ? err.message : fallback` (first argument X nonempty
and comma-free, fallback expression nonempty, not starting with whitespace
and free of commas and closing braces), the full pass rewrites the call to
`logger.error(X, err instanceof Error ? err : new Error(String(err)))`: the
non-error branch wraps the stringified bound identifier `err`, and the
original fallback expression is discarded.  Exactly one fix is counted and
no other rule of the table touches the call site. -/
theorem c3_conditional_rewrite (x : List Char) (f0 : Char) (fb' : List Char)
    (hx : x ≠ []) (hcx : ∀ c ∈ x, c ≠ ',')
    (hf0 : isSpaceChar f0 = false)
    (hfb : ∀ c ∈ f0 :: fb', c ≠ ',' ∧ c ≠ '\x7d') :
    applyPatterns PATTERNS
        ("logger.error(".data ++ x ++
          (", \x7b error: err instanceof Error ? err.message : ".data ++
            ((f0 :: fb') ++ " \x7d)".data))) =
      ("logger.error(".data ++ x ++
        ", err instanceof Error ? err : new Error(String(err)))".data, 1) := by
  have hfb2 : ∀ c ∈ f0 :: fb', CCls.notCommaBrace.test c = true := by
    intro c hcm
    obtain ⟨h1, h2⟩ := hfb c hcm
    simp [CCls.test, h1, h2]
  have hCsplit : "logger.error(".data ++ x ++
      (", \x7b error: err instanceof Error ? err.message : ".data ++
        ((f0 :: fb') ++ " \x7d)".data)) =
      "logger.error(".data ++ x ++ ',' ::
        (" \x7b error: err instanceof Error ? err.message : ".data ++
          ((f0 :: fb') ++ " \x7d)".data)) := rfl
  have hRsplit : "logger.error(".data ++ x ++
      ", err instanceof Error ? err : new Error(String(err)))".data =
      "logger.error(".data ++ x ++ ',' ::
        " err instanceof Error ? err : new Error(String(err)))".data := rfl
  -- the conditional tail and its comma-freeness
  have hTcf : ∀ c ∈ " \x7b error: err instanceof Error ? err.message : ".data ++
      ((f0 :: fb') ++ " \x7d)".data), c ≠ ',' := by
    intro c hcm
    rcases List.mem_append.mp hcm with h1 | h1
    · intro he; subst he; revert h1; decide
    · rcases List.mem_append.mp h1 with h2 | h2
      · exact (hfb c h2).1
      · intro he; subst he; revert h2; decide
  have hTcnt : (" \x7b error: err instanceof Error ? err.message : ".data ++
      ((f0 :: fb') ++ " \x7d)".data)).count ',' = 0 := by
    rw [List.count_eq_zero]
    intro hmem
    exact hTcf ',' hmem rfl
  have hB3cf : ∀ c ∈ " err instanceof Error ? err : new Error(String(err)))".data,
      c ≠ ',' := by decide
  -- rules 0-4 have no match in the input
  have hfm0 : firstMatch searchErrorMessageComma
      ("logger.error(".data ++ x ++
        (", \x7b error: err instanceof Error ? err.message : ".data ++
          ((f0 :: fb') ++ " \x7d)".data))) = none := by
    rw [hCsplit]
    refine noMatch_anchored restErrorMessageComma x _ hcx hTcf (fun g1 => ?_)
    refine mat_none_of_count ',' _ _ ?_
    show (" \x7b error: err instanceof Error ? err.message : ".data ++
      ((f0 :: fb') ++ " \x7d)".data)).count ',' < litCount ',' restErrorMessageComma
    rw [hTcnt]
    decide
  have hfm1 : firstMatch searchErrorMessageOnly
      ("logger.error(".data ++ x ++
        (", \x7b error: err instanceof Error ? err.message : ".data ++
          ((f0 :: fb') ++ " \x7d)".data))) = none := by
    rw [hCsplit]
    exact noMatch_anchored restErrorMessageOnly x _ hcx hTcf
      (fun g1 => restErrorMessageOnly_fail
        ("instanceof Error ? err.message : ".data ++ ((f0 :: fb') ++ " \x7d)".data)) _)
  have hfm2 : firstMatch searchDotMessageComma
      ("logger.error(".data ++ x ++
        (", \x7b error: err instanceof Error ? err.message : ".data ++
          ((f0 :: fb') ++ " \x7d)".data))) = none := by
    rw [hCsplit]
    refine noMatch_anchored restDotMessageComma x _ hcx hTcf (fun g1 => ?_)
    refine mat_none_of_count ',' _ _ ?_
    show (" \x7b error: err instanceof Error ? err.message : ".data ++
      ((f0 :: fb') ++ " \x7d)".data)).count ',' < litCount ',' restDotMessageComma
    rw [hTcnt]
    decide
  have hfm3 : firstMatch searchDotMessageOnly
      ("logger.error(".data ++ x ++
        (", \x7b error: err instanceof Error ? err.message : ".data ++
          ((f0 :: fb') ++ " \x7d)".data))) = none := by
    rw [hCsplit]
    exact noMatch_anchored restDotMessageOnly x _ hcx hTcf
      (fun g1 => restDotMessageOnly_fail
        ("instanceof Error ? err.message : ".data ++ ((f0 :: fb') ++ " \x7d)".data)) _)
  have hfm4 : firstMatch searchResultError
      ("logger.error(".data ++ x ++
        (", \x7b error: err instanceof Error ? err.message : ".data ++
          ((f0 :: fb') ++ " \x7d)".data))) = none := by
    rw [hCsplit]
    exact noMatch_anchored restResultError x _ hcx hTcf
      (fun g1 => restResultError_fail
        ("instanceof Error ? err.message : ".data ++ ((f0 :: fb') ++ " \x7d)".data)) _)
  -- rule 5 fires, consuming the whole call site
  have hm5 : mat searchConditional
      ⟨"logger.error(".data ++ x ++ ',' ::
        (" \x7b error: err instanceof Error ? err.message : ".data ++
          ((f0 :: fb') ++ " \x7d)".data)), [], []⟩ =
      some ⟨[], [], [(1, x)]⟩ := by
    unfold searchConditional
    exact mat_anchor_pos restConditional x _ _ hx hcx
      (restConditional_match f0 fb' [(1, x)] hf0 hfb2)
  have hconsC : "logger.error(".data ++ x ++ ',' ::
      (" \x7b error: err instanceof Error ? err.message : ".data ++
        ((f0 :: fb') ++ " \x7d)".data)) =
      'l' :: ("ogger.error(".data ++ x ++ ',' ::
        (" \x7b error: err instanceof Error ? err.message : ".data ++
          ((f0 :: fb') ++ " \x7d)".data))) := rfl
  have hfm5 : firstMatch searchConditional
      ("logger.error(".data ++ x ++
        (", \x7b error: err instanceof Error ? err.message : ".data ++
          ((f0 :: fb') ++ " \x7d)".data))) =
      some ([], "logger.error(".data ++ x ++ ',' ::
        (" \x7b error: err instanceof Error ? err.message : ".data ++
          ((f0 :: fb') ++ " \x7d)".data)), [(1, x)], []) := by
    rw [hCsplit, hconsC]
    exact firstMatch_full searchConditional _ _ _ _ (hconsC ▸ hm5)
  have hcnt5 : reCount searchConditional
      ("logger.error(".data ++ x ++
        (", \x7b error: err instanceof Error ? err.message : ".data ++
          ((f0 :: fb') ++ " \x7d)".data))) = 1 := by
    rw [reCount_eq, hfm5]
    simp [reCount_nil]
  have hsub5 : reSub searchConditional replaceConditional
      ("logger.error(".data ++ x ++
        (", \x7b error: err instanceof Error ? err.message : ".data ++
          ((f0 :: fb') ++ " \x7d)".data))) =
      "logger.error(".data ++ x ++
        ", err instanceof Error ? err : new Error(String(err)))".data := by
    rw [reSub_eq, hfm5]
    simp [replaceConditional, getCap, reSub_nil]
  -- rules 6 and 7 have no match in the rewritten content
  have hfm6 : firstMatch searchNamedError
      ("logger.error(".data ++ x ++
        ", err instanceof Error ? err : new Error(String(err)))".data) = none := by
    rw [hRsplit]
    exact noMatch_anchored restNamedError x _ hcx hB3cf
      (fun g1 => mat_none_of_count ',' _ _
        (show (" err instanceof Error ? err : new Error(String(err)))".data).count ',' <
          litCount ',' restNamedError from by decide))
  have hfm7 : firstMatch searchStack
      ("logger.error(".data ++ x ++
        ", err instanceof Error ? err : new Error(String(err)))".data) = none := by
    rw [hRsplit]
    exact noMatch_anchored restStack x _ hcx hB3cf
      (fun g1 => mat_none_of_count ',' _ _
        (show (" err instanceof Error ? err : new Error(String(err)))".data).count ',' <
          litCount ',' restStack from by decide))
  -- assemble the engine pass
  have e0 := applyRule_of_zero _ ⟨searchErrorMessageComma, replaceErrorMessageComma⟩
    (reCount_eq_zero _ _ hfm0)
  have e1 := applyRule_of_zero _ ⟨searchErrorMessageOnly, replaceErrorMessageOnly⟩
    (reCount_eq_zero _ _ hfm1)
  have e2 := applyRule_of_zero _ ⟨searchDotMessageComma, replaceDotMessageComma⟩
    (reCount_eq_zero _ _ hfm2)
  have e3 := applyRule_of_zero _ ⟨searchDotMessageOnly, replaceDotMessageOnly⟩
    (reCount_eq_zero _ _ hfm3)
  have e4 := applyRule_of_zero _ ⟨searchResultError, replaceResultError⟩
    (reCount_eq_zero _ _ hfm4)
  have e5 := applyRule_of_fire _ ⟨searchConditional, replaceConditional⟩ 1 _
    hcnt5 (by omega) hsub5
  have e6 := applyRule_of_zero _ ⟨searchNamedError, replaceNamedError⟩
    (reCount_eq_zero _ _ hfm6)
  have e7 := applyRule_of_zero _ ⟨searchStack, replaceStack⟩
    (reCount_eq_zero _ _ hfm7)
  simp only [PATTERNS, applyPatterns, e0, e1, e2, e3, e4, e5, e6, e7]

/-- Witness for the amended C3 at message `msg` and fallback
`fallbackMessage`. -/
theorem c3_conditional_rewrite_witness :
    applyPatterns PATTERNS
        ("logger.error(".data ++ "msg".data ++
          (", \x7b error: err instanceof Error ? err.message : ".data ++
            (('f' :: "allbackMessage".data) ++ " \x7d)".data))) =
      ("logger.error(".data ++ "msg".data ++
        ", err instanceof Error ? err : new Error(String(err)))".data, 1) :=
  c3_conditional_rewrite "msg".data 'f' "allbackMessage".data
    (by decide) (by decide) (by decide) (by decide)

/-- A match never lengthens the remaining input. -/
theorem mat_rem_len_le :
    ∀ (p : List RItem) (st st' : MSt), mat p st = some st' →
      st'.rem.length ≤ st.rem.length := by
  intro p
  induction p with
  | nil =>
      intro st st' h
      obtain rfl : st = st' := by simpa [mat] using h
      exact Nat.le_refl _
  | cons it ps ih =>
      intro st st' h
      have hdrop : ∀ (n : Nat), (st.rem.drop n).length ≤ st.rem.length := by
        intro n
        simp only [List.length_drop]
        omega
      cases it with
      | lit d =>
          obtain ⟨rem, opens, caps⟩ := st
          cases rem with
          | nil => simp [mat] at h
          | cons e t =>
              simp only [mat] at h
              by_cases he : e = d
              · rw [if_pos he] at h
                have := ih _ _ h
                simp only at this ⊢
                simp only [List.length_cons]
                omega
              · rw [if_neg he] at h; cases h
      | clsStar cc =>
          rw [mat_clsStar] at h
          obtain ⟨j, -, hfj, -⟩ := tryFrom_eq_some _ _ _ _ h
          exact (ih _ _ hfj).trans (hdrop j)
      | clsPlus cc =>
          rw [mat_clsPlus] at h
          split at h
          · cases h
          · obtain ⟨j, -, hfj, -⟩ := tryFrom_eq_some _ _ _ _ h
            exact (ih _ _ hfj).trans (hdrop j)
      | openG i =>
          rw [mat_openG] at h
          exact ih ⟨st.rem, (i, st.rem) :: st.opens, st.caps⟩ st' h
      | closeG i =>
          obtain ⟨rem, opens, caps⟩ := st
          cases opens with
          | nil => simp [mat] at h
          | cons p0 os =>
              obtain ⟨j0, r0⟩ := p0
              rw [mat_closeG_cons] at h
              by_cases hj : j0 = i
              · rw [if_pos hj] at h
                exact ih ⟨rem, os, (i, r0.take (r0.length - rem.length)) :: caps⟩ st' h
              · rw [if_neg hj] at h; cases h
      | backref i =>
          rw [mat_backref] at h
          split at h
          · exact (ih _ _ h).trans (hdrop _)
          · cases h

/-- Full decomposition of a successful scan: the text splits as prefix,
match and tail, the matcher succeeds on the suffix starting at the match,
its captures are the reported ones, and its leftover is exactly the tail. -/
theorem firstMatch_decomp (p : List RItem) :
    ∀ s pre m cps post, firstMatch p s = some (pre, m, cps, post) →
      s = pre ++ (m ++ post) ∧ m ≠ [] ∧
      ∃ st : MSt, mat p ⟨m ++ post, [], []⟩ = some st ∧ st.caps = cps ∧
        st.rem.length = post.length := by
  intro s
  induction s with
  | nil => intro pre m cps post h; simp [firstMatch] at h
  | cons c t ih =>
      intro pre m cps post h
      rw [firstMatch] at h
      split at h
      · next st hm =>
          split at h
          · next hlt =>
              simp only [Option.some.injEq, Prod.mk.injEq] at h
              obtain ⟨h1, h2, h3, h4⟩ := h
              subst h1; subst h3
              have htp : m ++ post = c :: t := by
                rw [← h2, ← h4]
                exact List.take_append_drop _ _
              have hmn : m ≠ [] := by
                intro hnil
                rw [hnil] at h2
                have : (0 : Nat) = (c :: t).length - st.rem.length := by
                  simpa using congrArg List.length h2.symm
                simp only [List.length_cons] at this hlt
                omega
              refine ⟨by simp [htp], hmn, st, by rw [htp]; exact hm, rfl, ?_⟩
              rw [← h4]
              simp only [List.length_drop]
              have := mat_rem_len_le p _ _ hm
              simp only at this
              omega
          · split at h
            · simp at h
            · next pre2 m2 cps2 post2 hr =>
                simp only [Option.some.injEq, Prod.mk.injEq] at h
                obtain ⟨h1, h2, h3, h4⟩ := h
                obtain ⟨ha, hb, hc⟩ := ih pre2 m2 cps2 post2 hr
                subst h1
                rw [← h2, ← h3, ← h4]
                refine ⟨?_, hb, hc⟩
                rw [List.cons_append, ← ha]
      · split at h
        · simp at h
        · next pre2 m2 cps2 post2 hr =>
            simp only [Option.some.injEq, Prod.mk.injEq] at h
            obtain ⟨h1, h2, h3, h4⟩ := h
            obtain ⟨ha, hb, hc⟩ := ih pre2 m2 cps2 post2 hr
            subst h1
            rw [← h2, ← h3, ← h4]
            refine ⟨?_, hb, hc⟩
            rw [List.cons_append, ← ha]

/-- Indices of the capture groups closed by a pattern fragment. -/
def closeKeys (p : List RItem) : List Nat :=
  p.filterMap (fun it =>
    match it with
    | .closeG i => some i
    | _ => none)

/-- A match only pushes captures whose keys are closed by the pattern: the
final capture list extends the initial one by such entries. -/
theorem mat_caps_keys :
    ∀ (p : List RItem) (r : List Char) (o cs : List (Nat × List Char)) (st' : MSt),
      mat p ⟨r, o, cs⟩ = some st' →
      ∃ d, st'.caps = d ++ cs ∧ ∀ e ∈ d, e.1 ∈ closeKeys p := by
  intro p
  induction p with
  | nil =>
      intro r o cs st' h
      obtain rfl : (⟨r, o, cs⟩ : MSt) = st' := by simpa [mat] using h
      exact ⟨[], rfl, by simp⟩
  | cons it ps ih =>
      have hsub : ∀ (e : Nat × List Char) (d : List (Nat × List Char)),
          (∀ x ∈ d, x.1 ∈ closeKeys ps) → e ∈ d → e.1 ∈ closeKeys (it :: ps) := by
        intro e d hd he
        have h1 := hd e he
        unfold closeKeys at h1 ⊢
        simp only [List.filterMap_cons]
        cases hcc : (match it with | RItem.closeG i => some i | _ => none) with
        | none => exact h1
        | some j => exact List.mem_cons_of_mem j h1
      intro r o cs st' h
      cases it with
      | lit d =>
          cases r with
          | nil => simp [mat] at h
          | cons e t =>
              rw [mat_lit_cons] at h
              split at h
              · obtain ⟨dd, h1, h2⟩ := ih _ _ _ _ h
                exact ⟨dd, h1, fun e he => hsub e dd h2 he⟩
              · cases h
      | clsStar cc =>
          rw [mat_clsStar] at h
          obtain ⟨j, -, hfj, -⟩ := tryFrom_eq_some _ _ _ _ h
          obtain ⟨dd, h1, h2⟩ := ih _ _ _ _ hfj
          exact ⟨dd, h1, fun e he => hsub e dd h2 he⟩
      | clsPlus cc =>
          rw [mat_clsPlus] at h
          split at h
          · cases h
          · obtain ⟨j, -, hfj, -⟩ := tryFrom_eq_some _ _ _ _ h
            obtain ⟨dd, h1, h2⟩ := ih _ _ _ _ hfj
            exact ⟨dd, h1, fun e he => hsub e dd h2 he⟩
      | openG i =>
          rw [mat_openG] at h
          obtain ⟨dd, h1, h2⟩ := ih _ _ _ _ h
          exact ⟨dd, h1, fun e he => hsub e dd h2 he⟩
      | closeG i =>
          cases o with
          | nil => simp [mat] at h
          | cons p0 os =>
              obtain ⟨j0, r0⟩ := p0
              rw [mat_closeG_cons] at h
              split at h
              · obtain ⟨dd, h1, h2⟩ := ih _ _ _ _ h
                refine ⟨dd ++ [(i, r0.take (r0.length - r.length))], ?_, ?_⟩
                · rw [h1, List.append_assoc]
                  rfl
                · intro e he
                  rcases List.mem_append.mp he with h3 | h3
                  · exact hsub e dd h2 h3
                  · have : e = (i, r0.take (r0.length - r.length)) := by
                      simpa using h3
                    rw [this]
                    unfold closeKeys
                    simp [List.filterMap_cons]
              · cases h
      | backref i =>
          rw [mat_backref] at h
          split at h
          · obtain ⟨dd, h1, h2⟩ := ih _ _ _ _ h
            exact ⟨dd, h1, fun e he => hsub e dd h2 he⟩
          · cases h

/-- Capture lookup skips entries with other keys. -/
theorem getCap_append_of_ne (i : Nat) :
    ∀ (d cs : List (Nat × List Char)), (∀ e ∈ d, e.1 ≠ i) →
      getCap i (d ++ cs) = getCap i cs := by
  intro d
  induction d with
  | nil => intro cs _; rfl
  | cons e d2 ih =>
      intro cs hd
      obtain ⟨j, v⟩ := e
      have hj : j ≠ i := hd (j, v) (List.mem_cons_self _ _)
      simp only [List.cons_append, getCap, if_neg hj]
      exact ih cs (fun e2 he2 => hd e2 (List.mem_cons_of_mem _ he2))

/-- Every remainder of the rule table starts with `\s*\{`; a match of such
a remainder splits its text into a whitespace block, the brace, and a tail
matched by the rest. -/
theorem mat_spaceStar_brace_decomp (rest2 : List RItem) (u2 : List Char)
    (caps : List (Nat × List Char)) (st : MSt)
    (h : mat (spaceStar :: .lit '\x7b' :: rest2) ⟨u2, [], caps⟩ = some st) :
    ∃ ws u3, u2 = ws ++ '\x7b' :: u3 ∧ (∀ c ∈ ws, isSpaceChar c = true) ∧
      mat rest2 ⟨u3, [], caps⟩ = some st ∧ st.rem.length ≤ u3.length := by
  rw [show spaceStar = RItem.clsStar CCls.space from rfl, mat_clsStar] at h
  obtain ⟨j, hj, hfj, -⟩ := tryFrom_eq_some _ _ _ _ h
  dsimp only at hfj
  cases hdrop : u2.drop j with
  | nil => rw [hdrop, mat_lit_nil] at hfj; cases hfj
  | cons e u3 =>
      rw [hdrop, mat_lit_cons] at hfj
      split at hfj
      · next he =>
          subst he
          refine ⟨u2.take j, u3, ?_, ?_, hfj, mat_rem_len_le _ _ _ hfj⟩
          · rw [← hdrop]
            exact (List.take_append_drop j u2).symm
          · intro c hc
            have := all_take_of_le_takeWhile CCls.space.test u2 j (by simpa using hj) c hc
            simpa [CCls.test] using this
      · cases hfj

/-- A text starting with a space and then a non-space, non-brace character
differs from any whitespace block followed by an opening brace. -/
theorem space_brace_ne (d : Char) (hd1 : isSpaceChar d = false) (hd2 : d ≠ '\x7b')
    (ws u3 W : List Char) (hws : ∀ c ∈ ws, isSpaceChar c = true) :
    ' ' :: d :: W ≠ ws ++ '\x7b' :: u3 := by
  cases ws with
  | nil =>
      intro h
      have := (List.cons.injEq .. ▸ h).1
      exact absurd this (by decide)
  | cons w ws2 =>
      intro h
      rw [List.cons_append] at h
      have h1 := (List.cons.injEq .. ▸ h).1
      have h2 := (List.cons.injEq .. ▸ h).2
      cases ws2 with
      | nil =>
          have := (List.cons.injEq .. ▸ h2).1
          exact absurd this hd2
      | cons w2 ws3 =>
          rw [List.cons_append] at h2
          have h3 := (List.cons.injEq .. ▸ h2).1
          have hw2 : isSpaceChar w2 = true :=
            hws w2 (List.mem_cons_of_mem _ (List.mem_cons_self _ _))
          rw [h3] at hd1
          rw [hd1] at hw2
          cases hw2

/-- Substituting an anchored rule whose replacement opens with
`logger.error(<group 1>, <non-space, non-brace>` changes the content: at
the first match, the original text continues with whitespace and an opening
brace where the replacement puts the new second argument. -/
theorem reSub_anchor_ne (rest2 : List RItem)
    (repl rt : List (Nat × List Char) → List Char) (d : Char)
    (hd1 : isSpaceChar d = false) (hd2 : d ≠ '\x7b')
    (hkeys : ∀ i ∈ closeKeys (spaceStar :: RItem.lit '\x7b' :: rest2), i ≠ 1)
    (hrepl : ∀ cps, repl cps =
      "logger.error(".data ++ getCap 1 cps ++ ',' :: ' ' :: d :: rt cps)
    (c : List Char)
    (hfm : firstMatch (anchorItems ++ spaceStar :: RItem.lit '\x7b' :: rest2) c ≠ none) :
    reSub (anchorItems ++ spaceStar :: RItem.lit '\x7b' :: rest2) repl c ≠ c := by
  cases hm : firstMatch (anchorItems ++ spaceStar :: RItem.lit '\x7b' :: rest2) c with
  | none => exact absurd hm hfm
  | some r =>
      obtain ⟨pre, m, cps, post⟩ := r
      obtain ⟨hsplit, -, st, hmat, hcaps, -⟩ :=
        firstMatch_decomp _ _ _ _ _ _ hm
      obtain ⟨g1, u2, hequ, -, -, hmrest⟩ := mat_anchor_decomp _ _ _ hmat
      obtain ⟨ws, u3, hu2, hws, -, -⟩ := mat_spaceStar_brace_decomp _ _ _ _ hmrest
      obtain ⟨dd, hdd, hddk⟩ := mat_caps_keys _ _ _ _ _ hmrest
      have hg1 : getCap 1 cps = g1 := by
        rw [← hcaps, hdd, getCap_append_of_ne 1 dd [(1, g1)]
          (fun e he => hkeys e.1 (hddk e he))]
        simp [getCap]
      intro heq
      rw [reSub_eq, hm] at heq
      dsimp only at heq
      have heq2 : repl cps ++
          reSub (anchorItems ++ spaceStar :: RItem.lit '\x7b' :: rest2) repl post =
          m ++ post := by
        have h3 : pre ++ (repl cps ++
            reSub (anchorItems ++ spaceStar :: RItem.lit '\x7b' :: rest2) repl post) =
            pre ++ (m ++ post) := by
          rw [← List.append_assoc]
          rw [heq]
          exact hsplit
        exact List.append_cancel_left h3
      rw [hrepl cps, hg1, hequ, hu2] at heq2
      have heq3 : ("logger.error(".data ++ g1) ++
          ',' :: (' ' :: d :: (rt cps ++
            reSub (anchorItems ++ spaceStar :: RItem.lit '\x7b' :: rest2) repl post)) =
          ("logger.error(".data ++ g1) ++ ',' :: (ws ++ '\x7b' :: u3) := by
        rw [← heq2]
        simp [List.append_assoc]
      have heq4 := List.append_cancel_left heq3
      have heq5 : ' ' :: d :: (rt cps ++
          reSub (anchorItems ++ spaceStar :: RItem.lit '\x7b' :: rest2) repl post) =
          ws ++ '\x7b' :: u3 :=
        (List.cons.injEq .. ▸ heq4).2
      exact space_brace_ne d hd1 hd2 ws u3 _ hws heq5

/-- A rule table whose every rule counts zero leaves the content unchanged
and reports zero fixes. -/
theorem applyPatterns_all_zero :
    ∀ (rs : List Rule) (c : List Char), (∀ q ∈ rs, reCount q.search c = 0) →
      applyPatterns rs c = (c, 0) := by
  intro rs
  induction rs with
  | nil => intro c _; rfl
  | cons r rest ih =>
      intro c h
      have hr := applyRule_of_zero c r (h r (List.mem_cons_self _ _))
      simp only [applyPatterns, hr]
      rw [ih c (fun q hq => h q (List.mem_cons_of_mem _ hq))]
      simp

/-- Running the table over content matched by exactly one rule: the rules
before it leave the content alone, the rule fires once with its count, and
the rules after it find nothing in the rewritten content. -/
theorem applyPatterns_single_fire :
    ∀ (preR : List Rule) (r : Rule) (postR : List Rule) (c out : List Char) (N : Nat),
      (∀ q ∈ preR, reCount q.search c = 0) →
      reCount r.search c = N → 0 < N → reSub r.search r.replace c = out →
      (∀ q ∈ postR, reCount q.search out = 0) →
      applyPatterns (preR ++ r :: postR) c = (out, N) := by
  intro preR
  induction preR with
  | nil =>
      intro r postR c out N _ hN h0 hsub hpost
      rw [List.nil_append]
      have hr := applyRule_of_fire c r N out hN h0 hsub
      simp only [applyPatterns, hr]
      rw [applyPatterns_all_zero postR out hpost]
      simp
  | cons q preR2 ih =>
      intro r postR c out N hpre hN h0 hsub hpost
      rw [List.cons_append]
      have hq := applyRule_of_zero c q (hpre q (List.mem_cons_self _ _))
      simp only [applyPatterns, hq]
      rw [ih r postR c out N (fun q2 hq2 => hpre q2 (List.mem_cons_of_mem _ hq2))
        hN h0 hsub hpost]
      simp

/-- The greedy loop succeeds whenever some admissible extent succeeds. -/
theorem tryFrom_isSome_of (f : Nat → Option MSt) (floor : Nat) :
    ∀ (k j : Nat), floor ≤ j → j ≤ k → (f j).isSome = true →
      (tryFrom f floor k).isSome = true := by
  intro k
  induction k with
  | zero =>
      intro j _ hj hf
      have : j = 0 := Nat.le_zero.mp hj
      subst this
      exact hf
  | succ k ih =>
      intro j hfl hj hf
      unfold tryFrom
      cases hfk : f (k + 1) with
      | some r => simp
      | none =>
          have hjk : j ≤ k := by
            rcases Nat.lt_or_ge j (k + 1) with h1 | h1
            · omega
            · have : j = k + 1 := by omega
              subst this
              rw [hfk] at hf
              cases hf
          have hfl2 : ¬(k + 1 ≤ floor) := by omega
          rw [if_neg hfl2]
          exact ih j hfl hjk hf

/-- A match of a concatenated pattern yields a match of its first part. -/
theorem mat_append_isSome :
    ∀ (p q : List RItem) (st : MSt), (mat (p ++ q) st).isSome = true →
      (mat p st).isSome = true := by
  intro p
  induction p with
  | nil => intro q st _; simp [mat]
  | cons it ps ih =>
      intro q st h
      cases it with
      | lit d =>
          obtain ⟨rem, opens, caps⟩ := st
          cases rem with
          | nil => rw [List.cons_append] at h; simp [mat] at h
          | cons e t =>
              rw [List.cons_append, mat_lit_cons] at h
              rw [mat_lit_cons]
              split at h
              · next he => rw [if_pos he]; exact ih q _ h
              · next he => simp at h
      | clsStar cc =>
          rw [List.cons_append, mat_clsStar] at h
          rw [mat_clsStar]
          obtain ⟨st2, hst2⟩ := Option.isSome_iff_exists.mp h
          obtain ⟨j, hj, hfj, -⟩ := tryFrom_eq_some _ _ _ _ hst2
          have := ih q _ (by rw [hfj]; rfl)
          exact tryFrom_isSome_of _ 0 _ j (Nat.zero_le j) hj this
      | clsPlus cc =>
          rw [List.cons_append, mat_clsPlus] at h
          rw [mat_clsPlus]
          split at h
          · cases h
          · next hrun =>
              rw [if_neg hrun]
              obtain ⟨st2, hst2⟩ := Option.isSome_iff_exists.mp h
              obtain ⟨j, hj, hfj, hor⟩ := tryFrom_eq_some _ _ _ _ hst2
              have hj1 : 1 ≤ j := by
                rcases hor with h1 | h1
                · exact h1
                · subst h1; omega
              have := ih q _ (by rw [hfj]; rfl)
              exact tryFrom_isSome_of _ 1 _ j hj1 hj this
      | openG i =>
          rw [List.cons_append, mat_openG] at h
          rw [mat_openG]
          exact ih q _ h
      | closeG i =>
          obtain ⟨rem, opens, caps⟩ := st
          cases opens with
          | nil => rw [List.cons_append] at h; simp [mat] at h
          | cons p0 os =>
              obtain ⟨j0, r0⟩ := p0
              rw [List.cons_append, mat_closeG_cons] at h
              rw [mat_closeG_cons]
              split at h
              · next hj => rw [if_pos hj]; exact ih q _ h
              · next hj => simp at h
      | backref i =>
          rw [List.cons_append, mat_backref] at h
          rw [mat_backref]
          split at h
          · next hp => rw [if_pos hp]; exact ih q _ h
          · next hp => simp at h

/-- When the scan finds nothing, every successful anchored match at a
nonempty suffix consumes nothing. -/
theorem firstMatch_none_implies (p : List RItem) :
    ∀ s, firstMatch p s = none → ∀ u, u <:+ s → u ≠ [] →
      ∀ st, mat p ⟨u, [], []⟩ = some st → u.length ≤ st.rem.length := by
  intro s
  induction s with
  | nil =>
      intro _ u hu hne _ _
      exact absurd (List.suffix_nil.mp hu) hne
  | cons c t ih =>
      intro h u hu hne st hst
      rw [firstMatch] at h
      rcases List.suffix_cons_iff.mp hu with h1 | h1
      · subst h1
        rw [hst] at h
        split at h
        · next r heq =>
            injection heq with heq2
            subst heq2
            split at h
            · simp at h
            · next hlt =>
                simp only [List.length_cons] at hlt ⊢
                omega
        · next heq => exact Option.noConfusion heq
      · have hrec : firstMatch p t = none := by
          split at h
          · split at h
            · simp at h
            · split at h
              · next heq2 => exact heq2
              · simp at h
          · split at h
            · next heq2 => exact heq2
            · simp at h
        exact ih hrec u h1 hne st hst

/-- Zero count means no leftmost match anywhere. -/
theorem firstMatch_eq_none_of_count (p : List RItem) (s : List Char)
    (h : reCount p s = 0) : firstMatch p s = none := by
  cases hm : firstMatch p s with
  | none => rfl
  | some r =>
      obtain ⟨pre, m, cps, post⟩ := r
      rw [reCount_eq, hm] at h
      simp at h

/-- PATTERNS[0] really rewrites: its substitution output differs from any
input it matches. -/
theorem reSub_ne_r0 (c : List Char)
    (h : firstMatch searchErrorMessageComma c ≠ none) :
    reSub searchErrorMessageComma replaceErrorMessageComma c ≠ c :=
  reSub_anchor_ne (List.drop 2 restErrorMessageComma) replaceErrorMessageComma
    (fun _ => "ew Error(errorMessage), \x7b".data) 'n' (by decide) (by decide)
    (by decide) (fun _ => rfl) c h

/-- PATTERNS[1] really rewrites. -/
theorem reSub_ne_r1 (c : List Char)
    (h : firstMatch searchErrorMessageOnly c ≠ none) :
    reSub searchErrorMessageOnly replaceErrorMessageOnly c ≠ c :=
  reSub_anchor_ne (List.drop 2 restErrorMessageOnly) replaceErrorMessageOnly
    (fun _ => "ew Error(errorMessage))".data) 'n' (by decide) (by decide)
    (by decide) (fun _ => rfl) c h

/-- PATTERNS[2] really rewrites. -/
theorem reSub_ne_r2 (c : List Char)
    (h : firstMatch searchDotMessageComma c ≠ none) :
    reSub searchDotMessageComma replaceDotMessageComma c ≠ c :=
  reSub_anchor_ne (List.drop 2 restDotMessageComma) replaceDotMessageComma
    (fun cps => "ew Error(".data ++ getCap 2 cps ++ ".message), \x7b".data) 'n'
    (by decide) (by decide) (by decide)
    (fun cps => by
      have h1 : (", new Error(".data : List Char) =
          ',' :: ' ' :: 'n' :: "ew Error(".data := rfl
      simp only [replaceDotMessageComma, h1, List.append_assoc, List.cons_append]) c h

/-- PATTERNS[3] really rewrites. -/
theorem reSub_ne_r3 (c : List Char)
    (h : firstMatch searchDotMessageOnly c ≠ none) :
    reSub searchDotMessageOnly replaceDotMessageOnly c ≠ c :=
  reSub_anchor_ne (List.drop 2 restDotMessageOnly) replaceDotMessageOnly
    (fun cps => "ew Error(".data ++ getCap 2 cps ++ ".message))".data) 'n'
    (by decide) (by decide) (by decide)
    (fun cps => by
      have h1 : (", new Error(".data : List Char) =
          ',' :: ' ' :: 'n' :: "ew Error(".data := rfl
      simp only [replaceDotMessageOnly, h1, List.append_assoc, List.cons_append]) c h

/-- PATTERNS[4] really rewrites. -/
theorem reSub_ne_r4 (c : List Char)
    (h : firstMatch searchResultError c ≠ none) :
    reSub searchResultError replaceResultError c ≠ c :=
  reSub_anchor_ne (List.drop 2 restResultError) replaceResultError
    (fun _ => "ew Error(result.error))".data) 'n' (by decide) (by decide)
    (by decide) (fun _ => rfl) c h

/-- PATTERNS[5] really rewrites. -/
theorem reSub_ne_r5 (c : List Char)
    (h : firstMatch searchConditional c ≠ none) :
    reSub searchConditional replaceConditional c ≠ c :=
  reSub_anchor_ne (List.drop 2 restConditional) replaceConditional
    (fun _ => "rr instanceof Error ? err : new Error(String(err)))".data) 'e'
    (by decide) (by decide) (by decide) (fun _ => rfl) c h

/-- PATTERNS[6] really rewrites. -/
theorem reSub_ne_r6 (c : List Char)
    (h : firstMatch searchNamedError c ≠ none) :
    reSub searchNamedError replaceNamedError c ≠ c :=
  reSub_anchor_ne (List.drop 2 restNamedError) replaceNamedError
    (fun cps => "ew Error(".data ++ getCap 3 cps ++ ".message), \x7b ".data ++
      getCap 2 cps ++ "Type: \x27".data ++ getCap 2 cps ++ "\x27,".data) 'n'
    (by decide) (by decide) (by decide)
    (fun cps => by
      have h1 : (", new Error(".data : List Char) =
          ',' :: ' ' :: 'n' :: "ew Error(".data := rfl
      simp only [replaceNamedError, h1, List.append_assoc, List.cons_append]) c h

/-- Any text matched by the stack pattern PATTERNS[7] is also matched by the
earlier PATTERNS[2]: with PATTERNS[2] matching nowhere, PATTERNS[7] matches
nowhere either. -/
theorem stack_count_zero (c : List Char)
    (h2 : reCount searchDotMessageComma c = 0) : reCount searchStack c = 0 := by
  apply reCount_eq_zero
  cases hm : firstMatch searchStack c with
  | none => rfl
  | some r =>
      exfalso
      obtain ⟨pre, m, cps, post⟩ := r
      obtain ⟨hsplit, hmne, st, hmat, -, -⟩ := firstMatch_decomp _ _ _ _ _ _ hm
      have hdec : searchStack = searchDotMessageComma ++
          ([spaceStar] ++ lits "stack:" ++ [spaceStar, RItem.backref 2] ++
            lits ".stack" ++ [spaceStar, RItem.lit ',']) := by decide
      have hiso : (mat searchDotMessageComma ⟨m ++ post, [], []⟩).isSome = true := by
        apply mat_append_isSome searchDotMessageComma _ _
        rw [← hdec, hmat]
        rfl
      obtain ⟨st2, hst2⟩ := Option.isSome_iff_exists.mp hiso
      have hnone2 : firstMatch searchDotMessageComma c = none :=
        firstMatch_eq_none_of_count _ _ h2
      have hle := firstMatch_none_implies searchDotMessageComma c hnone2 (m ++ post)
        (by rw [hsplit]; exact List.suffix_append pre (m ++ post))
        (fun hnil => hmne (List.append_eq_nil.mp hnil).1) st2 hst2
      obtain ⟨g1, u, hequ, -, -, hrest⟩ :=
        mat_anchor_decomp restDotMessageComma _ _ hst2
      have hrem := mat_rem_len_le _ _ _ hrest
      dsimp only at hrem
      rw [hequ] at hle
      simp only [List.length_append, List.length_cons] at hle
      omega

/-- C5: count conservation for an isolated rule.  If the content matches
exactly one rule of the table -- N occurrences (N positive) of rule i's
pattern, and zero occurrences of every other rule's pattern both on the
original content and on the content after rule i's substitution -- then the
engine reports the file as changed with fix count exactly N. -/
theorem c5_count_conservation (c : List Char) (i : Fin PATTERNS.length) (N : Nat)
    (hN : 0 < N) (hi : reCount (PATTERNS.get i).search c = N)
    (hothers : ∀ j : Fin PATTERNS.length, j ≠ i →
      reCount (PATTERNS.get j).search c = 0 ∧
      reCount (PATTERNS.get j).search
        (reSub (PATTERNS.get i).search (PATTERNS.get i).replace c) = 0) :
    fixResult c = (true, N) := by
  fin_cases i
  · have happ : applyPatterns PATTERNS c = (reSub searchErrorMessageComma replaceErrorMessageComma c, N) := by
      have e : PATTERNS = ([] : List Rule) ++
          (⟨searchErrorMessageComma, replaceErrorMessageComma⟩ : Rule) ::
          [⟨searchErrorMessageOnly, replaceErrorMessageOnly⟩,
           ⟨searchDotMessageComma, replaceDotMessageComma⟩,
           ⟨searchDotMessageOnly, replaceDotMessageOnly⟩,
           ⟨searchResultError, replaceResultError⟩,
           ⟨searchConditional, replaceConditional⟩,
           ⟨searchNamedError, replaceNamedError⟩,
           ⟨searchStack, replaceStack⟩] := rfl
      rw [e]
      apply applyPatterns_single_fire
      · intro q hq
        exact absurd hq (List.not_mem_nil q)
      · exact hi
      · exact hN
      · rfl
      · intro q hq
        fin_cases hq
        · exact (hothers ⟨1, by decide⟩ (by decide)).2
        · exact (hothers ⟨2, by decide⟩ (by decide)).2
        · exact (hothers ⟨3, by decide⟩ (by decide)).2
        · exact (hothers ⟨4, by decide⟩ (by decide)).2
        · exact (hothers ⟨5, by decide⟩ (by decide)).2
        · exact (hothers ⟨6, by decide⟩ (by decide)).2
        · exact (hothers ⟨7, by decide⟩ (by decide)).2
    have hne : reSub searchErrorMessageComma replaceErrorMessageComma c ≠ c := by
      apply reSub_ne_r0
      intro hnone
      have hi2 : reCount searchErrorMessageComma c = N := hi
      rw [reCount_eq_zero _ _ hnone] at hi2
      omega
    simp only [fixResult]
    rw [happ]
    simp [hne]
  · have happ : applyPatterns PATTERNS c = (reSub searchErrorMessageOnly replaceErrorMessageOnly c, N) := by
      have e : PATTERNS = [⟨searchErrorMessageComma, replaceErrorMessageComma⟩] ++
          (⟨searchErrorMessageOnly, replaceErrorMessageOnly⟩ : Rule) ::
          [⟨searchDotMessageComma, replaceDotMessageComma⟩,
           ⟨searchDotMessageOnly, replaceDotMessageOnly⟩,
           ⟨searchResultError, replaceResultError⟩,
           ⟨searchConditional, replaceConditional⟩,
           ⟨searchNamedError, replaceNamedError⟩,
           ⟨searchStack, replaceStack⟩] := rfl
      rw [e]
      apply applyPatterns_single_fire
      · intro q hq
        fin_cases hq
        · exact (hothers ⟨0, by decide⟩ (by decide)).1
      · exact hi
      · exact hN
      · rfl
      · intro q hq
        fin_cases hq
        · exact (hothers ⟨2, by decide⟩ (by decide)).2
        · exact (hothers ⟨3, by decide⟩ (by decide)).2
        · exact (hothers ⟨4, by decide⟩ (by decide)).2
        · exact (hothers ⟨5, by decide⟩ (by decide)).2
        · exact (hothers ⟨6, by decide⟩ (by decide)).2
        · exact (hothers ⟨7, by decide⟩ (by decide)).2
    have hne : reSub searchErrorMessageOnly replaceErrorMessageOnly c ≠ c := by
      apply reSub_ne_r1
      intro hnone
      have hi2 : reCount searchErrorMessageOnly c = N := hi
      rw [reCount_eq_zero _ _ hnone] at hi2
      omega
    simp only [fixResult]
    rw [happ]
    simp [hne]
  · have happ : applyPatterns PATTERNS c = (reSub searchDotMessageComma replaceDotMessageComma c, N) := by
      have e : PATTERNS = [⟨searchErrorMessageComma, replaceErrorMessageComma⟩,
           ⟨searchErrorMessageOnly, replaceErrorMessageOnly⟩] ++
          (⟨searchDotMessageComma, replaceDotMessageComma⟩ : Rule) ::
          [⟨searchDotMessageOnly, replaceDotMessageOnly⟩,
           ⟨searchResultError, replaceResultError⟩,
           ⟨searchConditional, replaceConditional⟩,
           ⟨searchNamedError, replaceNamedError⟩,
           ⟨searchStack, replaceStack⟩] := rfl
      rw [e]
      apply applyPatterns_single_fire
      · intro q hq
        fin_cases hq
        · exact (hothers ⟨0, by decide⟩ (by decide)).1
        · exact (hothers ⟨1, by decide⟩ (by decide)).1
      · exact hi
      · exact hN
      · rfl
      · intro q hq
        fin_cases hq
        · exact (hothers ⟨3, by decide⟩ (by decide)).2
        · exact (hothers ⟨4, by decide⟩ (by decide)).2
        · exact (hothers ⟨5, by decide⟩ (by decide)).2
        · exact (hothers ⟨6, by decide⟩ (by decide)).2
        · exact (hothers ⟨7, by decide⟩ (by decide)).2
    have hne : reSub searchDotMessageComma replaceDotMessageComma c ≠ c := by
      apply reSub_ne_r2
      intro hnone
      have hi2 : reCount searchDotMessageComma c = N := hi
      rw [reCount_eq_zero _ _ hnone] at hi2
      omega
    simp only [fixResult]
    rw [happ]
    simp [hne]
  · have happ : applyPatterns PATTERNS c = (reSub searchDotMessageOnly replaceDotMessageOnly c, N) := by
      have e : PATTERNS = [⟨searchErrorMessageComma, replaceErrorMessageComma⟩,
           ⟨searchErrorMessageOnly, replaceErrorMessageOnly⟩,
           ⟨searchDotMessageComma, replaceDotMessageComma⟩] ++
          (⟨searchDotMessageOnly, replaceDotMessageOnly⟩ : Rule) ::
          [⟨searchResultError, replaceResultError⟩,
           ⟨searchConditional, replaceConditional⟩,
           ⟨searchNamedError, replaceNamedError⟩,
           ⟨searchStack, replaceStack⟩] := rfl
      rw [e]
      apply applyPatterns_single_fire
      · intro q hq
        fin_cases hq
        · exact (hothers ⟨0, by decide⟩ (by decide)).1
        · exact (hothers ⟨1, by decide⟩ (by decide)).1
        · exact (hothers ⟨2, by decide⟩ (by decide)).1
      · exact hi
      · exact hN
      · rfl
      · intro q hq
        fin_cases hq
        · exact (hothers ⟨4, by decide⟩ (by decide)).2
        · exact (hothers ⟨5, by decide⟩ (by decide)).2
        · exact (hothers ⟨6, by decide⟩ (by decide)).2
        · exact (hothers ⟨7, by decide⟩ (by decide)).2
    have hne : reSub searchDotMessageOnly replaceDotMessageOnly c ≠ c := by
      apply reSub_ne_r3
      intro hnone
      have hi2 : reCount searchDotMessageOnly c = N := hi
      rw [reCount_eq_zero _ _ hnone] at hi2
      omega
    simp only [fixResult]
    rw [happ]
    simp [hne]
  · have happ : applyPatterns PATTERNS c = (reSub searchResultError replaceResultError c, N) := by
      have e : PATTERNS = [⟨searchErrorMessageComma, replaceErrorMessageComma⟩,
           ⟨searchErrorMessageOnly, replaceErrorMessageOnly⟩,
           ⟨searchDotMessageComma, replaceDotMessageComma⟩,
           ⟨searchDotMessageOnly, replaceDotMessageOnly⟩] ++
          (⟨searchResultError, replaceResultError⟩ : Rule) ::
          [⟨searchConditional, replaceConditional⟩,
           ⟨searchNamedError, replaceNamedError⟩,
           ⟨searchStack, replaceStack⟩] := rfl
      rw [e]
      apply applyPatterns_single_fire
      · intro q hq
        fin_cases hq
        · exact (hothers ⟨0, by decide⟩ (by decide)).1
        · exact (hothers ⟨1, by decide⟩ (by decide)).1
        · exact (hothers ⟨2, by decide⟩ (by decide)).1
        · exact (hothers ⟨3, by decide⟩ (by decide)).1
      · exact hi
      · exact hN
      · rfl
      · intro q hq
        fin_cases hq
        · exact (hothers ⟨5, by decide⟩ (by decide)).2
        · exact (hothers ⟨6, by decide⟩ (by decide)).2
        · exact (hothers ⟨7, by decide⟩ (by decide)).2
    have hne : reSub searchResultError replaceResultError c ≠ c := by
      apply reSub_ne_r4
      intro hnone
      have hi2 : reCount searchResultError c = N := hi
      rw [reCount_eq_zero _ _ hnone] at hi2
      omega
    simp only [fixResult]
    rw [happ]
    simp [hne]
  · have happ : applyPatterns PATTERNS c = (reSub searchConditional replaceConditional c, N) := by
      have e : PATTERNS = [⟨searchErrorMessageComma, replaceErrorMessageComma⟩,
           ⟨searchErrorMessageOnly, replaceErrorMessageOnly⟩,
           ⟨searchDotMessageComma, replaceDotMessageComma⟩,
           ⟨searchDotMessageOnly, replaceDotMessageOnly⟩,
           ⟨searchResultError, replaceResultError⟩] ++
          (⟨searchConditional, replaceConditional⟩ : Rule) ::
          [⟨searchNamedError, replaceNamedError⟩,
           ⟨searchStack, replaceStack⟩] := rfl
      rw [e]
      apply applyPatterns_single_fire
      · intro q hq
        fin_cases hq
        · exact (hothers ⟨0, by decide⟩ (by decide)).1
        · exact (hothers ⟨1, by decide⟩ (by decide)).1
        · exact (hothers ⟨2, by decide⟩ (by decide)).1
        · exact (hothers ⟨3, by decide⟩ (by decide)).1
        · exact (hothers ⟨4, by decide⟩ (by decide)).1
      · exact hi
      · exact hN
      · rfl
      · intro q hq
        fin_cases hq
        · exact (hothers ⟨6, by decide⟩ (by decide)).2
        · exact (hothers ⟨7, by decide⟩ (by decide)).2
    have hne : reSub searchConditional replaceConditional c ≠ c := by
      apply reSub_ne_r5
      intro hnone
      have hi2 : reCount searchConditional c = N := hi
      rw [reCount_eq_zero _ _ hnone] at hi2
      omega
    simp only [fixResult]
    rw [happ]
    simp [hne]
  · have happ : applyPatterns PATTERNS c = (reSub searchNamedError replaceNamedError c, N) := by
      have e : PATTERNS = [⟨searchErrorMessageComma, replaceErrorMessageComma⟩,
           ⟨searchErrorMessageOnly, replaceErrorMessageOnly⟩,
           ⟨searchDotMessageComma, replaceDotMessageComma⟩,
           ⟨searchDotMessageOnly, replaceDotMessageOnly⟩,
           ⟨searchResultError, replaceResultError⟩,
           ⟨searchConditional, replaceConditional⟩] ++
          (⟨searchNamedError, replaceNamedError⟩ : Rule) ::
          [⟨searchStack, replaceStack⟩] := rfl
      rw [e]
      apply applyPatterns_single_fire
      · intro q hq
        fin_cases hq
        · exact (hothers ⟨0, by decide⟩ (by decide)).1
        · exact (hothers ⟨1, by decide⟩ (by decide)).1
        · exact (hothers ⟨2, by decide⟩ (by decide)).1
        · exact (hothers ⟨3, by decide⟩ (by decide)).1
        · exact (hothers ⟨4, by decide⟩ (by decide)).1
        · exact (hothers ⟨5, by decide⟩ (by decide)).1
      · exact hi
      · exact hN
      · rfl
      · intro q hq
        fin_cases hq
        · exact (hothers ⟨7, by decide⟩ (by decide)).2
    have hne : reSub searchNamedError replaceNamedError c ≠ c := by
      apply reSub_ne_r6
      intro hnone
      have hi2 : reCount searchNamedError c = N := hi
      rw [reCount_eq_zero _ _ hnone] at hi2
      omega
    simp only [fixResult]
    rw [happ]
    simp [hne]
  · exfalso
    have h2 : reCount searchDotMessageComma c = 0 :=
      (hothers ⟨2, by decide⟩ (by decide)).1
    have h7 := stack_count_zero c h2
    have hi2 : reCount searchStack c = N := hi
    rw [h7] at hi2
    omega

/-- Concrete instance for C5: a call site matching only PATTERNS[3], once;
the engine reports (changed, 1 fix). -/
theorem c5_count_conservation_witness :
    fixResult "logger.error(\x27x\x27, \x7b error: e.message \x7d)".data =
      (true, 1) :=
  c5_count_conservation _ ⟨3, by decide⟩ 1 (by decide) (by decide)
    (fun j hj => by
      fin_cases j
      · exact ⟨by decide, by decide⟩
      · exact ⟨by decide, by decide⟩
      · exact ⟨by decide, by decide⟩
      · exact absurd rfl hj
      · exact ⟨by decide, by decide⟩
      · exact ⟨by decide, by decide⟩
      · exact ⟨by decide, by decide⟩
      · exact ⟨by decide, by decide⟩)
